import Mathlib

/-!
# Formal model of the mplcairo rendering core

Shallow embedding of the C++ rendering engine (`src/_mplcairo.cpp`,
`src/_util.cpp`): the affine transform adapter, the graphics state stack,
the path loader/clipper (both the general op-code overload and the fast
codeless overload with Cohen–Sutherland clipping), pixel snapping, the
marker stamp-grid activation logic, and region capture/restore.

Machine `double`s are modelled by `ℚ`: all arithmetic in the modelled code
paths is exact on the inputs considered, and a rational input is always
finite, so the non-finite branches of the source (which emit no
coordinates, only `cairo_new_sub_path`) are outside the model.
-/

namespace Mplcairo

/-! ## Basic cairo types -/

/-- `cairo_antialias_t`. -/
inductive CairoAntialias
  | default
  | none
  | gray
  | subpixel
  | fast
  | good
  | best
deriving DecidableEq, Repr

/-- `cairo_matrix_t`: the 2×3 device matrix `{xx, yx, xy, yy, x0, y0}`. -/
structure CairoMatrix where
  xx : ℚ
  yx : ℚ
  xy : ℚ
  yy : ℚ
  x0 : ℚ
  y0 : ℚ
deriving DecidableEq, Repr

/-- `cairo_matrix_transform_point`: `x' = xx·x + xy·y + x0`, `y' = yx·x + yy·y + y0`. -/
def transformPoint (m : CairoMatrix) (p : ℚ × ℚ) : ℚ × ℚ :=
  (m.xx * p.1 + m.xy * p.2 + m.x0, m.yx * p.1 + m.yy * p.2 + m.y0)

/-- Errors thrown by the renderer (`std::invalid_argument` / `std::runtime_error`). -/
inductive RenderError
  | invalidArgument (msg : String)
  | runtimeError (msg : String)
deriving DecidableEq, Repr

/-! ## Affine transform adapter (`matrix_from_transform`, `_util.cpp`) -/

/-- A matplotlib transform as seen by the C++ layer: an `is_affine` marker and
a 3×3 row-major coefficient matrix.  (The source also rejects arrays whose
shape is not (3, 3); the shape is fixed here by the type.) -/
structure Transform where
  affineMarked : Bool
  m : Fin 3 → Fin 3 → ℚ

/-- `matrix_from_transform(py::object transform, double y0)`: reject transforms
not marked affine, otherwise build the y-flipped device matrix
`{m00, -m10, m01, -m11, m02, y0 - m12}`. -/
def matrix_from_transform (transform : Transform) (y0 : ℚ) :
    Except RenderError CairoMatrix :=
  if ¬ transform.affineMarked then
    .error (.invalidArgument "Only affine transforms are handled")
  else
    .ok
      { xx := transform.m 0 0, yx := -(transform.m 1 0),
        xy := transform.m 0 1, yy := -(transform.m 1 1),
        x0 := transform.m 0 2, y0 := y0 - transform.m 1 2 }

/-! ## Antialias resolution (`AdditionalContext::AdditionalContext`) -/

/-- The `antialias` member of `AdditionalState`:
`std::variant<cairo_antialias_t, bool>`. -/
inductive AntialiasSetting
  | enum (aa : CairoAntialias)
  | flag (b : Bool)
deriving DecidableEq, Repr

/-- The antialias resolution performed when the scoped additional context is
opened: an explicit enum value is applied as-is; `true` picks
`CAIRO_ANTIALIAS_BEST` when the current line width is `< 1/3` and
`CAIRO_ANTIALIAS_FAST` otherwise; `false` sets `CAIRO_ANTIALIAS_NONE`. -/
def resolve_antialias (setting : AntialiasSetting) (lw : ℚ) : CairoAntialias :=
  match setting with
  | .enum aa => aa
  | .flag b =>
      if b then
        (if lw < 1/3 then .best else .fast)
      else
        .none

/-! ## Pixel snapping (`load_path_exact` snappers) -/

/-- `std::floor(x) + .5`: the half-integer snapper used for sub-unit or
odd-rounding line widths. -/
def floor_snapper (x : ℚ) : ℚ := ⌊x⌋ + 1/2

/-- `std::lround` / `std::round` semantics: round to nearest, ties away from
zero, as an integer. -/
def cppRoundInt (x : ℚ) : ℤ :=
  if x < 0 then -⌊-x + 1/2⌋ else ⌊x + 1/2⌋

/-- `std::round(x)`: the integer snapper used for even-rounding line widths. -/
def round_snapper (x : ℚ) : ℚ := (cppRoundInt x : ℚ)

/-! ## Graphics state stack (`AdditionalState`, `new_gc`, `restore`) -/

/-- `AdditionalState` (`_util.h`), as initialized in the
`GraphicsContextRenderer` constructor.  The opaque python/cairo handles
(`clip_path`, `sketch`) are modelled by simple placeholders; only their
presence matters here. -/
structure AdditionalState where
  alpha : Option ℚ
  antialias : AntialiasSetting
  clipRectangle : Option (ℚ × ℚ × ℚ × ℚ)
  clipPath : Option Unit
  hatch : Option String
  hatchColor : ℚ × ℚ × ℚ × ℚ
  hatchLinewidth : ℚ
  sketch : Option (ℚ × ℚ × ℚ)
  snap : Bool
deriving DecidableEq, Repr

/-- The base state pushed at context creation (hatch color and linewidth come
from runtime rc-params, passed here as parameters). -/
def initialState (hatchColor : ℚ × ℚ × ℚ × ℚ) (hatchLinewidth : ℚ) :
    AdditionalState :=
  { alpha := none,
    antialias := .flag true,
    clipRectangle := none,
    clipPath := none,
    hatch := none,
    hatchColor := hatchColor,
    hatchLinewidth := hatchLinewidth,
    sketch := none,
    snap := true }

/-- The per-context state stack, top first.  The constructor installs
`[initialState …]`. -/
abbrev StateStack := List AdditionalState

/-- `GraphicsContextRenderer::new_gc`: `states.push(states.top())`.
(`top()` on an empty stack is undefined behaviour in the source; the model
returns the empty stack there.) -/
def new_gc : StateStack → StateStack
  | [] => []
  | s :: rest => s :: s :: rest

/-- `GraphicsContextRenderer::restore`: `states.pop(); cairo_restore(cr_);` —
an unconditional pop with no precondition check.  (`pop()` on an empty stack
is undefined behaviour in the source; the model returns the empty stack.) -/
def restore : StateStack → StateStack
  | [] => []
  | _ :: rest => rest

/-- A caller-issued stack operation. -/
inductive StackOp
  | push
  | pop
deriving DecidableEq, Repr

/-- Apply a sequence of `new_gc`/`restore` calls to a stack. -/
def applyStackOps (ops : List StackOp) (stack : StateStack) : StateStack :=
  ops.foldl (fun st op => match op with | .push => new_gc st | .pop => restore st) stack

/-! ## Marker stamp-grid activation (`draw_markers`) -/

/-- The two drawing strategies of `draw_markers`. -/
inductive MarkerStrategy
  | stampGrid
  | direct
deriving DecidableEq, Repr

/-- The decision logic of `draw_markers`: `simplify_threshold` is forced to 0
on vector surfaces; the `patterns` array is allocated iff the threshold is at
least 1/16 and `n_subpix² < n_vertices` where `n_subpix = ⌈1/threshold⌉`;
the stamp grid is used iff `patterns` was allocated. -/
def markerStrategy (vectorSurface : Bool) (threshold : ℚ) (nVertices : ℕ) :
    MarkerStrategy :=
  let simplifyThreshold : ℚ := if vectorSurface then 0 else threshold
  if 1/16 ≤ simplifyThreshold then
    let nSubpix : ℤ := ⌈1 / simplifyThreshold⌉
    if nSubpix * nSubpix < (nVertices : ℤ) then .stampGrid else .direct
  else .direct

/-! ## Snap save/restore in `draw_markers` / `draw_path_collection` -/

/-- The effect of `draw_markers` on the top `AdditionalState` (only the `snap`
member is touched): save `snap`, force it to `false` for the duration of the
call, restore it before returning. -/
def draw_markers_state (s : AdditionalState) : AdditionalState :=
  let oldSnap := s.snap
  let s := { s with snap := false }
  { s with snap := oldSnap }

/-- The effect of `draw_path_collection` (past its python-fallback dispatch) on
the top `AdditionalState`: save `snap`, force it to `false`, then — before any
other work — return early if the path list or the offsets array is empty
(`if (!n_paths || !n_offsets) return;`), else restore `snap` at the end. -/
def draw_path_collection_state (s : AdditionalState) (nPaths nOffsets : ℕ) :
    AdditionalState :=
  let oldSnap := s.snap
  let s := { s with snap := false }
  if nPaths = 0 ∨ nOffsets = 0 then s
  else { s with snap := oldSnap }

/-! ## Region capture/restore (`copy_from_bbox`, `restore_region`) -/

/-- `cairo_surface_type_t`, restricted to the cases `has_vector_surface`
recognizes. -/
inductive SurfaceType
  | image
  | xlib
  | pdf
  | ps
  | svg
  | recording
  | script
deriving DecidableEq, Repr

/-- A cairo surface: its type tag and, for raster data access
(`cairo_image_surface_get_data` / `get_stride`), a byte store addressed by
`ℤ` and a row stride. -/
structure Surface where
  type : SurfaceType
  stride : ℤ
  data : ℤ → ℕ

/-- The renderer context fields used by the region operations:
`cr_`'s target surface and the `width_`/`height_` members. -/
structure Context where
  surface : Surface
  width : ℤ
  height : ℤ

/-- A matplotlib bounding box (`bbox.x0` etc.). -/
structure Bbox where
  x0 : ℚ
  y0 : ℚ
  x1 : ℚ
  y1 : ℚ

/-- A captured region: the integer rectangle and the owned byte buffer
(4 bytes per pixel, row stride `width * 4`). -/
structure Region where
  x0 : ℤ
  y0 : ℤ
  width : ℤ
  height : ℤ
  buf : ℤ → ℕ

/-- `std::memcpy(dst + dstOff, src + srcOff, len)` on byte stores. -/
def memcpyBytes (dst : ℤ → ℕ) (dstOff : ℤ) (src : ℤ → ℕ) (srcOff len : ℤ) :
    ℤ → ℕ :=
  fun i => if dstOff ≤ i ∧ i < dstOff + len then src (srcOff + (i - dstOff)) else dst i

/-- The capture loop of `copy_from_bbox`: for `y = y0, …, y0 + rows - 1`,
`memcpy(buf + (y - y0) * 4 * width, raw + y * stride + 4 * x0, 4 * width)`.
The rows are processed here by recursion on the remaining row count; the
written ranges are pairwise disjoint, so the order is immaterial. -/
def captureRows (s : Surface) (x0 y0 w : ℤ) : ℕ → (ℤ → ℕ) → (ℤ → ℕ)
  | 0, buf => buf
  | k + 1, buf =>
      memcpyBytes (captureRows s x0 y0 w k buf) ((k : ℤ) * (4 * w))
        s.data ((y0 + k) * s.stride + 4 * x0) (4 * w)

/-- The freshly allocated capture buffer after the row loop (the `new`
allocation is modelled as all zeros; every byte below `4 * w * h` is
overwritten by the loop). -/
def captureBuf (s : Surface) (x0 y0 w h : ℤ) : ℤ → ℕ :=
  captureRows s x0 y0 w h.toNat (fun _ => 0)

/-- `GraphicsContextRenderer::copy_from_bbox`: integerize the rectangle with
floor/ceil, validate `0 ≤ x0 ≤ x1 ≤ width_ ∧ 0 ≤ y0 ≤ y1 ≤ height_`
(`std::invalid_argument` otherwise), require an image surface
(`std::runtime_error` otherwise), then copy the rows into a fresh buffer. -/
def copy_from_bbox (ctx : Context) (bbox : Bbox) : Except RenderError Region :=
  let x0 : ℤ := ⌊bbox.x0⌋
  let x1 : ℤ := ⌈bbox.x1⌉
  let y0 : ℤ := ⌊bbox.y0⌋
  let y1 : ℤ := ⌈bbox.y1⌉
  if ¬ (0 ≤ x0 ∧ x0 ≤ x1 ∧ x1 ≤ ctx.width
        ∧ 0 ≤ y0 ∧ y0 ≤ y1 ∧ y1 ≤ ctx.height) then
    .error (.invalidArgument "Invalid bbox")
  else
    let w := x1 - x0
    let h := y1 - y0
    if ctx.surface.type ≠ .image then
      .error (.runtimeError "copy_from_bbox only supports image surfaces")
    else
      .ok { x0 := x0, y0 := y0, width := w, height := h,
            buf := captureBuf ctx.surface x0 y0 w h }

/-- The restore loop of `restore_region`: for `y = y0, …, y0 + rows - 1`,
`memcpy(raw + y * stride + 4 * x0, buf + (y - y0) * 4 * width, 4 * width)`. -/
def restoreRows (buf : ℤ → ℕ) (stride x0 y0 w : ℤ) : ℕ → (ℤ → ℕ) → (ℤ → ℕ)
  | 0, raw => raw
  | k + 1, raw =>
      memcpyBytes (restoreRows buf stride x0 y0 w k raw)
        ((y0 + k) * stride + 4 * x0) buf ((k : ℤ) * (4 * w)) (4 * w)

/-- `GraphicsContextRenderer::restore_region`: require an image surface
(`std::runtime_error` otherwise), then write the buffer back row by row at its
original location and return the updated surface. -/
def restore_region (ctx : Context) (region : Region) :
    Except RenderError Surface :=
  if ctx.surface.type ≠ .image then
    .error (.runtimeError "restore_region only supports image surfaces")
  else
    .ok { ctx.surface with
          data := restoreRows region.buf ctx.surface.stride region.x0 region.y0
                    region.width region.height.toNat ctx.surface.data }

/-- `restore_region(copy_from_bbox(bbox))`, with the surface data possibly
replaced by `d'` between the two calls (drawing between capture and restore
only changes pixel bytes, not the surface identity, stride or type). -/
def captureThenRestore (ctx : Context) (bbox : Bbox) (d' : ℤ → ℕ) :
    Except RenderError Surface :=
  (copy_from_bbox ctx bbox).bind
    (restore_region { ctx with surface := { ctx.surface with data := d' } })

/-! ## Path loader (`load_path_exact`), general op-code overload -/

/-- Lower clamp bound `double(-(1 << 22))`: cairo device coordinates must fit
a 24-bit signed fixed-point format. -/
def minCoord : ℚ := -(2 ^ 22)

/-- Upper clamp bound `double(1 << 22)`. -/
def maxCoord : ℚ := 2 ^ 22

/-- `std::clamp(x, min, max)`. -/
def clampCoord (x : ℚ) : ℚ :=
  if x < minCoord then minCoord else if maxCoord < x then maxCoord else x

/-- The snapper of the general (op-code) overload:
`snap ? ((0 < lw && (lw < 1 || lround(lw) % 2 == 1)) ? floor+.5 : round) : id`,
where `snap = !has_vector_surface(cr) && state.snap`. -/
def snapperGeneral (vectorSurface snapFlag : Bool) (lw : ℚ) : ℚ → ℚ :=
  if ¬ vectorSurface ∧ snapFlag then
    if 0 < lw ∧ (lw < 1 ∨ cppRoundInt lw % 2 = 1) then floor_snapper
    else round_snapper
  else id

/-- The snapper of the codeless overload (no `0 < lw` conjunct there):
`(lw < 1) || (lround(lw) % 2 == 1) ? floor+.5 : round`. -/
def snapperCodeless (lw : ℚ) : ℚ → ℚ :=
  if lw < 1 ∨ cppRoundInt lw % 2 = 1 then floor_snapper else round_snapper

/-- Matplotlib path op-codes. -/
inductive PathCode
  | stop
  | moveto
  | lineto
  | curve3
  | curve4
  | closepoly
deriving DecidableEq, Repr

/-- A drawing command issued to cairo by the path loader. -/
inductive CairoOp
  | moveTo (x y : ℚ)
  | lineTo (x y : ℚ)
  | curveTo (x1 y1 x2 y2 x3 y3 : ℚ)
  | closePath
deriving DecidableEq, Repr

/-- The coordinate arguments of one cairo drawing command. -/
def CairoOp.coords : CairoOp → List ℚ
  | .moveTo x y => [x, y]
  | .lineTo x y => [x, y]
  | .curveTo x1 y1 x2 y2 x3 y3 => [x1, y1, x2, y2, x3, y3]
  | .closePath => []

/-- The cairo path-construction state the loader interacts with: the command
list built so far, the current point (`cairo_has_current_point` /
`cairo_get_current_point`) and the current sub-path start (the target of
`cairo_close_path`). -/
structure LPState where
  ops : List CairoOp
  current : Option (ℚ × ℚ)
  start : Option (ℚ × ℚ)
deriving DecidableEq, Repr

/-- `cairo_move_to`. -/
def LPState.moveTo (st : LPState) (x y : ℚ) : LPState :=
  { ops := st.ops ++ [.moveTo x y], current := some (x, y), start := some (x, y) }

/-- `cairo_line_to` (with no current point, cairo records a move instead; the
segment endpoint becomes the current point either way). -/
def LPState.lineTo (st : LPState) (x y : ℚ) : LPState :=
  { ops := st.ops ++ [.lineTo x y], current := some (x, y),
    start := match st.start with | some s => some s | none => some (x, y) }

/-- `cairo_curve_to` (only reached with a current point in the source). -/
def LPState.curveTo (st : LPState) (x1 y1 x2 y2 x3 y3 : ℚ) : LPState :=
  { ops := st.ops ++ [.curveTo x1 y1 x2 y2 x3 y3], current := some (x3, y3),
    start := st.start }

/-- `cairo_close_path`: close the current sub-path and move to its start; a
no-op without a current sub-path. -/
def LPState.closePath (st : LPState) : LPState :=
  match st.start with
  | some s => { ops := st.ops ++ [.closePath], current := some s, start := some s }
  | none => st

/-- All coordinates recorded in the path state — emitted command arguments,
the current point, and the sub-path start — lie in `[minCoord, B]`. -/
def stateBounded (B : ℚ) (st : LPState) : Prop :=
  (∀ op ∈ st.ops, ∀ c ∈ op.coords, minCoord ≤ c ∧ c ≤ B) ∧
  (∀ p, st.current = some p →
    (minCoord ≤ p.1 ∧ p.1 ≤ B) ∧ (minCoord ≤ p.2 ∧ p.2 ≤ B)) ∧
  (∀ p, st.start = some p →
    (minCoord ≤ p.1 ∧ p.1 ≤ B) ∧ (minCoord ≤ p.2 ∧ p.2 ≤ B))

/-- The main loop of the general overload of `load_path_exact`: transform,
clamp, then replay each op-code.  Over `ℚ` every coordinate is finite, so the
non-finite branches (`cairo_new_sub_path`, which emits no coordinates) are
unreachable and omitted.  `CURVE3` consumes one extra vertex and rebuilds a
cubic from the quadratic control point; `CURVE4` consumes two extra vertices.
The loop is driven by structural fuel; each step consumes at least one vertex
index, so fuel `n` suffices for the whole path. -/
def loadPathGo (vs : ℕ → ℚ × ℚ) (codes : ℕ → PathCode) (n : ℕ)
    (mat : CairoMatrix) (snapper : ℚ → ℚ) : ℕ → ℕ → LPState → LPState
  | 0, _, st => st
  | fuel + 1, i, st =>
    if i < n then
      let p0 := transformPoint mat (vs i)
      let x0 := clampCoord p0.1
      let y0 := clampCoord p0.2
      match codes i with
      | .stop => loadPathGo vs codes n mat snapper fuel (i + 1) st
      | .moveto =>
          loadPathGo vs codes n mat snapper fuel (i + 1)
            (st.moveTo (snapper x0) (snapper y0))
      | .lineto =>
          loadPathGo vs codes n mat snapper fuel (i + 1)
            (st.lineTo (snapper x0) (snapper y0))
      | .curve3 =>
          let p1 := transformPoint mat (vs (i + 1))
          let x1 := clampCoord p1.1
          let y1 := clampCoord p1.2
          match st.current with
          | some pc =>
              loadPathGo vs codes n mat snapper fuel (i + 2)
                (st.curveTo ((pc.1 + 2 * x0) / 3) ((pc.2 + 2 * y0) / 3)
                  ((2 * x0 + x1) / 3) ((2 * y0 + y1) / 3)
                  (snapper x1) (snapper y1))
          | none =>
              loadPathGo vs codes n mat snapper fuel (i + 2)
                (st.moveTo (snapper x1) (snapper y1))
      | .curve4 =>
          let p1 := transformPoint mat (vs (i + 1))
          let p2 := transformPoint mat (vs (i + 2))
          let x1 := clampCoord p1.1
          let y1 := clampCoord p1.2
          let x2 := clampCoord p2.1
          let y2 := clampCoord p2.2
          match st.current with
          | some _ =>
              loadPathGo vs codes n mat snapper fuel (i + 3)
                (st.curveTo x0 y0 x1 y1 (snapper x2) (snapper y2))
          | none =>
              loadPathGo vs codes n mat snapper fuel (i + 3)
                (st.moveTo (snapper x2) (snapper y2))
      | .closepoly =>
          loadPathGo vs codes n mat snapper fuel (i + 1) st.closePath
    else st

/-- The general overload of `load_path_exact`, starting from the fresh path
installed by `LoadPathContext` (`cairo_new_path`: no ops, no current point). -/
def load_path_general (vs : ℕ → ℚ × ℚ) (codes : ℕ → PathCode) (n : ℕ)
    (mat : CairoMatrix) (snapper : ℚ → ℚ) : LPState :=
  loadPathGo vs codes n mat snapper n 0 { ops := [], current := none, start := none }

/-! ## Cohen–Sutherland segment clipping (`load_path_exact`, codeless overload) -/

/-- `outcode`: `LEFT = 1 << 0`, `RIGHT = 1 << 1`, `BOTTOM = 1 << 2`,
`TOP = 1 << 3`, accumulated with `|=` exactly as in the source. -/
def outcode (x y : ℚ) : ℕ :=
  (if x < minCoord then 1 else if maxCoord < x then 2 else 0) |||
  (if y < minCoord then 4 else if maxCoord < y then 8 else 0)

/-- One boundary-intersection computation of the clipping loop: the branch
order (`TOP`, `BOTTOM`, `RIGHT`, `LEFT`) and the interpolation formulas follow
the source; `(0, 0)` is the initial `xc = 0., yc = 0.` (never used, since the
chosen code is nonzero). -/
def clipCalc (xPrev yPrev x y : ℚ) (code : ℕ) : ℚ × ℚ :=
  if code &&& 8 ≠ 0 then
    (xPrev + (x - xPrev) * (maxCoord - yPrev) / (y - yPrev), maxCoord)
  else if code &&& 4 ≠ 0 then
    (xPrev + (x - xPrev) * (minCoord - yPrev) / (y - yPrev), minCoord)
  else if code &&& 2 ≠ 0 then
    (maxCoord, yPrev + (y - yPrev) * (maxCoord - xPrev) / (x - xPrev))
  else if code &&& 1 ≠ 0 then
    (minCoord, yPrev + (y - yPrev) * (minCoord - xPrev) / (x - xPrev))
  else (0, 0)

/-- The outcome of the clipping loop for one segment.  `accept` carries the
(possibly truncated) endpoints and the `update_prev` flag (whether the first
endpoint moved, triggering an extra `MOVE_TO` before the emitted `LINE_TO`);
`reject` means no line segment is emitted (the source records only a
`MOVE_TO` of the destination). -/
inductive ClipResult
  | accept (xPrev yPrev x y : ℚ) (updatePrev : Bool)
  | reject
deriving DecidableEq, Repr

/-- The `while (true)` clipping loop, driven by structural fuel (`none` means
fuel ran out; fuel 5 is proven sufficient below).  The codes `code0`/`code1`
are recomputed from the current points each iteration; in the source they are
kept incrementally and invariantly equal to these values. -/
def csLoop : ℕ → ℚ → ℚ → ℚ → ℚ → Bool → Option ClipResult
  | 0, _, _, _, _, _ => none
  | fuel + 1, xPrev, yPrev, x, y, updatePrev =>
    let code0 := outcode xPrev yPrev
    let code1 := outcode x y
    if code0 ||| code1 = 0 then
      some (.accept xPrev yPrev x y updatePrev)
    else if code0 &&& code1 ≠ 0 then
      some .reject
    else
      let code := if code0 ≠ 0 then code0 else code1
      let c := clipCalc xPrev yPrev x y code
      if code = code0 then
        csLoop fuel c.1 c.2 x y true
      else
        csLoop fuel xPrev yPrev c.1 c.2 updatePrev

/-- The per-segment Cohen–Sutherland clip of the codeless overload, entered
with `update_prev = false`. -/
def csClipSegment (xPrev yPrev x y : ℚ) : Option ClipResult :=
  csLoop 5 xPrev yPrev x y false

/-- Both coordinates within the ±2²² box. -/
def inBoxQ (x y : ℚ) : Prop :=
  minCoord ≤ x ∧ x ≤ maxCoord ∧ minCoord ≤ y ∧ y ≤ maxCoord

instance (x y : ℚ) : Decidable (inBoxQ x y) := by unfold inBoxQ; infer_instance

/-- The point lies exactly on the clip-box boundary. -/
def onBoundaryQ (x y : ℚ) : Prop :=
  x = minCoord ∨ x = maxCoord ∨ y = minCoord ∨ y = maxCoord

/-- The point `(xp, yp) + t · ((x, y) - (xp, yp))` lies in the box for some
`t ∈ [0, 1]`: the closed segment meets the clip box. -/
def segMeetsBox (xp yp x y : ℚ) : Prop :=
  ∃ t : ℚ, 0 ≤ t ∧ t ≤ 1 ∧ inBoxQ (xp + (x - xp) * t) (yp + (y - yp) * t)

/-- `(x, y)` lies on the closed segment from `(Px, Py)` to `(Qx, Qy)`. -/
def onSegment (Px Py Qx Qy x y : ℚ) : Prop :=
  ∃ t : ℚ, 0 ≤ t ∧ t ≤ 1 ∧ x = Px + (Qx - Px) * t ∧ y = Py + (Qy - Py) * t

/-- Termination measure of the clipping loop: the number of box faces for
which some current endpoint is still strictly outside.  Each loop iteration
pins one such face to the boundary and never unpins a face. -/
def csUncleared (xPrev yPrev x y : ℚ) : ℕ :=
  (if minCoord ≤ xPrev ∧ minCoord ≤ x then 0 else 1) +
  (if xPrev ≤ maxCoord ∧ x ≤ maxCoord then 0 else 1) +
  (if minCoord ≤ yPrev ∧ minCoord ≤ y then 0 else 1) +
  (if yPrev ≤ maxCoord ∧ y ≤ maxCoord then 0 else 1)

/-! # Theorems -/

/-! ## Helper lemmas -/

theorem cppRoundInt_intCast (n : ℤ) : cppRoundInt (n : ℚ) = n := by
  unfold cppRoundInt
  have h : ∀ m : ℤ, ⌊(m : ℚ) + 1/2⌋ = m := by
    intro m
    rw [show ((m : ℚ) + 1/2) = (1/2 : ℚ) + m by ring, Int.floor_add_int]
    norm_num
  split
  · rw [show (-(n : ℚ) : ℚ) = ((-n : ℤ) : ℚ) by push_cast; ring, h, neg_neg]
  · exact h n

/-! ## C7: snap idempotence -/

/-- **C7**: both snapping functions are idempotent: for every coordinate `x`,
`floor(floor(x) + 1/2) + 1/2 = floor(x) + 1/2` for the half-integer snapper
and `round(round(x)) = round(x)` for the integer snapper. -/
theorem snapper_idempotent (x : ℚ) :
    floor_snapper (floor_snapper x) = floor_snapper x ∧
    round_snapper (round_snapper x) = round_snapper x := by
  constructor
  · unfold floor_snapper
    rw [show ((⌊x⌋ : ℚ) + 1/2) = (1/2 : ℚ) + (⌊x⌋ : ℚ) by ring, Int.floor_add_int]
    have h0 : ⌊(1/2 : ℚ)⌋ = 0 := by norm_num
    rw [h0]
    push_cast
    ring
  · unfold round_snapper
    rw [cppRoundInt_intCast]

/-! ## C5: antialias resolution -/

/-- **C5**: when the scoped additional context is opened, an explicit enum
antialias value is applied as-is; boolean `true` applies `BEST` iff the
current line width is strictly below 1/3 and `FAST` otherwise; boolean
`false` applies `NONE`. -/
theorem antialias_resolution_spec (setting : AntialiasSetting) (lw : ℚ) :
    (∀ aa, setting = .enum aa → resolve_antialias setting lw = aa) ∧
    (setting = .flag true → lw < 1/3 → resolve_antialias setting lw = .best) ∧
    (setting = .flag true → 1/3 ≤ lw → resolve_antialias setting lw = .fast) ∧
    (setting = .flag false → resolve_antialias setting lw = .none) := by
  refine ⟨?_, ?_, ?_, ?_⟩
  · intro aa h; subst h; rfl
  · intro h hlw; subst h
    show (if lw < 1/3 then CairoAntialias.best else .fast) = .best
    exact if_pos hlw
  · intro h hlw; subst h
    show (if lw < 1/3 then CairoAntialias.best else .fast) = .fast
    exact if_neg (not_lt.mpr hlw)
  · intro h; subst h; rfl

/-- Witness for C5: the four resolution cases evaluated at concrete inputs. -/
theorem antialias_resolution_spec_witness :
    resolve_antialias (.enum .gray) 1 = .gray ∧
    resolve_antialias (.flag true) (1/4) = .best ∧
    resolve_antialias (.flag true) 1 = .fast ∧
    resolve_antialias (.flag false) 1 = .none :=
  ⟨(antialias_resolution_spec (.enum .gray) 1).1 .gray rfl,
   (antialias_resolution_spec (.flag true) (1/4)).2.1 rfl (by norm_num),
   (antialias_resolution_spec (.flag true) 1).2.2.1 rfl (by norm_num),
   (antialias_resolution_spec (.flag false) 1).2.2.2 rfl⟩

/-! ## C6: the affine transform adapter -/

/-- **C6**: for every 3×3 row-major matrix marked affine and vertical extent
`H`, `matrix_from_transform` produces exactly the device matrix
`{a = m00, b = -m10, c = m01, d = -m11, e = m02, f = H - m12}`; for every
transform not marked affine it produces an invalid-argument error. -/
theorem matrix_from_transform_spec (t : Transform) (H : ℚ) :
    (t.affineMarked = true →
       matrix_from_transform t H =
         .ok { xx := t.m 0 0, yx := -(t.m 1 0), xy := t.m 0 1,
               yy := -(t.m 1 1), x0 := t.m 0 2, y0 := H - t.m 1 2 }) ∧
    (t.affineMarked = false →
       matrix_from_transform t H =
         .error (.invalidArgument "Only affine transforms are handled")) := by
  constructor <;> intro h <;> simp [matrix_from_transform, h]

/-- Witness for C6: the adapter evaluated on a concrete affine matrix and on a
concrete non-affine transform. -/
theorem matrix_from_transform_spec_witness :
    matrix_from_transform ⟨true, fun i j => (i : ℚ) * 3 + (j : ℚ)⟩ 100 =
      .ok { xx := 0, yx := -3, xy := 1, yy := -4, x0 := 2, y0 := 100 - 5 } ∧
    matrix_from_transform ⟨false, fun _ _ => 0⟩ 100 =
      .error (.invalidArgument "Only affine transforms are handled") := by
  constructor
  · have h := (matrix_from_transform_spec ⟨true, fun i j => (i : ℚ) * 3 + (j : ℚ)⟩ 100).1 rfl
    rw [h]; norm_num
  · exact (matrix_from_transform_spec ⟨false, fun _ _ => 0⟩ 100).2 rfl

/-! ## C9: marker stamp-grid activation -/

/-- **C9**: `draw_markers` uses the pre-rendered subpixel stamp grid iff the
target is a raster surface, the simplification threshold is at least 1/16,
and `⌈1/threshold⌉²` is strictly smaller than the number of marker positions;
in every other case (including all vector targets, where the threshold is
treated as 0) every marker is drawn directly. -/
theorem marker_strategy_spec (v : Bool) (threshold : ℚ) (nVertices : ℕ) :
    (markerStrategy v threshold nVertices = .stampGrid ↔
       v = false ∧ 1/16 ≤ threshold ∧
         ⌈1/threshold⌉ * ⌈1/threshold⌉ < (nVertices : ℤ)) ∧
    (markerStrategy v threshold nVertices = .direct ↔
       ¬ (v = false ∧ 1/16 ≤ threshold ∧
            ⌈1/threshold⌉ * ⌈1/threshold⌉ < (nVertices : ℤ))) := by
  cases v
  · unfold markerStrategy
    simp only [if_false, Bool.false_eq_true]
    split_ifs with h1 h2 <;> simp_all
  · unfold markerStrategy
    have h : ¬ ((1 : ℚ)/16 ≤ 0) := by norm_num
    simp only [if_true, Bool.true_eq_false]
    rw [if_neg h]
    simp

/-! ## C10: snap flag save/restore in the bulk-drawing calls -/

/-- Counterexample for C10: `draw_path_collection` called with an empty path
list returns normally through the early `if (!n_paths || !n_offsets) return;`
without restoring the snap flag, leaving it `false` although it was `true`
before the call. -/
theorem draw_path_collection_snap_counterexample :
    (draw_path_collection_state (initialState (0, 0, 0, 1) 1) 0 1).snap = false ∧
    (initialState (0, 0, 0, 1) 1).snap = true := by
  constructor <;> rfl

/-- **C10 (amended)**: `draw_markers` always restores the snap flag on normal
return, and `draw_path_collection` restores it whenever the path list and the
offsets array are both nonempty; with an empty path list or empty offsets it
returns early with the snap flag forced to `false`. -/
theorem snap_saved_restored (s : AdditionalState) (nPaths nOffsets : ℕ)
    (hp : nPaths ≠ 0) (ho : nOffsets ≠ 0) :
    draw_markers_state s = s ∧
    draw_path_collection_state s nPaths nOffsets = s := by
  have hcond : ¬ (nPaths = 0 ∨ nOffsets = 0) := by
    rintro (h | h)
    exacts [hp h, ho h]
  constructor
  · rfl
  · unfold draw_path_collection_state
    rw [if_neg hcond]

/-- Witness for C10 (amended): both calls leave a concrete state unchanged. -/
theorem snap_saved_restored_witness :
    draw_markers_state (initialState (0, 0, 0, 1) 1) = initialState (0, 0, 0, 1) 1 ∧
    draw_path_collection_state (initialState (0, 0, 0, 1) 1) 2 3 =
      initialState (0, 0, 0, 1) 1 :=
  snap_saved_restored (initialState (0, 0, 0, 1) 1) 2 3
    (by norm_num) (by norm_num)

/-! ## C2: the state-stack pop has no precondition check -/

/-- Counterexample for C2: calling `restore` on a freshly created context
(stack depth 1) does not fail; it silently pops the base state, leaving the
stack empty, so the depth-≥-1 invariant is violated. -/
theorem restore_pops_base_counterexample :
    restore [initialState (0, 0, 0, 1) 1] = [] ∧
    ¬ (1 ≤ (restore [initialState (0, 0, 0, 1) 1]).length) := by
  constructor
  · rfl
  · intro h
    simp [restore] at h

theorem applyStackOps_aux (ops : List StackOp) :
    ∀ (l : List AdditionalState) (base : AdditionalState),
      (∀ k, ((ops.take k).count StackOp.pop) ≤ l.length + (ops.take k).count StackOp.push) →
      ∃ l2, applyStackOps ops (l ++ [base]) = l2 ++ [base] := by
  induction ops with
  | nil => intro l base _; exact ⟨l, rfl⟩
  | cons op rest ih =>
    intro l base h
    cases op with
    | push =>
        have hstep : applyStackOps (.push :: rest) (l ++ [base])
            = applyStackOps rest (new_gc (l ++ [base])) := rfl
        rw [hstep]
        obtain ⟨l1, hl1, hlen⟩ :
            ∃ l1, new_gc (l ++ [base]) = l1 ++ [base] ∧ l1.length = l.length + 1 := by
          cases l with
          | nil => exact ⟨[base], rfl, rfl⟩
          | cons a l2 => exact ⟨a :: a :: l2, rfl, rfl⟩
        rw [hl1]
        apply ih l1 base
        intro k
        have hk := h (k + 1)
        simp [List.take_succ_cons, List.count_cons] at hk
        simp only [hlen]
        omega
    | pop =>
        have hstep : applyStackOps (.pop :: rest) (l ++ [base])
            = applyStackOps rest (restore (l ++ [base])) := rfl
        rw [hstep]
        have hne : l ≠ [] := by
          intro he
          have h1 := h 1
          simp [he, List.take, List.count_cons] at h1
        obtain ⟨a, l2, rfl⟩ : ∃ a l2, l = a :: l2 := by
          cases l with
          | nil => exact absurd rfl hne
          | cons a l2 => exact ⟨a, l2, rfl⟩
        have hres : restore ((a :: l2) ++ [base]) = l2 ++ [base] := rfl
        rw [hres]
        apply ih l2 base
        intro k
        have hk := h (k + 1)
        simp [List.take_succ_cons, List.count_cons, List.length_cons] at hk
        omega

/-- **C2 (amended)**: `restore` performs no precondition check — it
unconditionally pops (see the counterexample) — so the depth-≥-1 invariant
holds only for caller-balanced call sequences: for every sequence of
`new_gc`/`restore` operations in which no prefix contains more pops than
pushes, the stack depth stays at least 1 and the base state created at
context creation remains at the bottom of the stack. -/
theorem state_stack_balanced (ops : List StackOp) (base : AdditionalState)
    (h : ∀ k, ((ops.take k).count StackOp.pop) ≤ (ops.take k).count StackOp.push) :
    1 ≤ (applyStackOps ops [base]).length ∧
    (applyStackOps ops [base]).getLast? = some base := by
  obtain ⟨l2, hl2⟩ := applyStackOps_aux ops [] base (by simpa using h)
  rw [show ([base] : StateStack) = [] ++ [base] from rfl, hl2]
  constructor
  · simp
  · simp

/-- Witness for C2 (amended): a balanced push/pop sequence on a concrete base
state keeps depth ≥ 1 and the base at the bottom. -/
theorem state_stack_balanced_witness :
    1 ≤ (applyStackOps [.push, .pop] [initialState (0, 0, 0, 1) 1]).length ∧
    (applyStackOps [.push, .pop] [initialState (0, 0, 0, 1) 1]).getLast?
      = some (initialState (0, 0, 0, 1) 1) := by
  apply state_stack_balanced
  intro k
  rcases k with _ | _ | k <;> simp [List.take, List.count_cons]

/-! ## C8: region operation error handling -/

/-- **C8**: `copy_from_bbox` raises an invalid-argument error unless the
integerized rectangle satisfies `0 ≤ x0 ≤ x1 ≤ width` and `0 ≤ y0 ≤ y1 ≤
height` (this check comes first, so it wins when both preconditions fail);
with valid bounds, both `copy_from_bbox` and `restore_region` raise an
unsupported-operation (runtime) error whenever the target surface is not a
raster (image) surface; in all other cases they succeed. -/
theorem region_ops_error_spec (ctx : Context) (bbox : Bbox) (region : Region) :
    (¬ (0 ≤ ⌊bbox.x0⌋ ∧ ⌊bbox.x0⌋ ≤ ⌈bbox.x1⌉ ∧ ⌈bbox.x1⌉ ≤ ctx.width
        ∧ 0 ≤ ⌊bbox.y0⌋ ∧ ⌊bbox.y0⌋ ≤ ⌈bbox.y1⌉ ∧ ⌈bbox.y1⌉ ≤ ctx.height) →
       copy_from_bbox ctx bbox = .error (.invalidArgument "Invalid bbox")) ∧
    ((0 ≤ ⌊bbox.x0⌋ ∧ ⌊bbox.x0⌋ ≤ ⌈bbox.x1⌉ ∧ ⌈bbox.x1⌉ ≤ ctx.width
        ∧ 0 ≤ ⌊bbox.y0⌋ ∧ ⌊bbox.y0⌋ ≤ ⌈bbox.y1⌉ ∧ ⌈bbox.y1⌉ ≤ ctx.height) →
       ctx.surface.type ≠ .image →
       copy_from_bbox ctx bbox
         = .error (.runtimeError "copy_from_bbox only supports image surfaces")) ∧
    ((0 ≤ ⌊bbox.x0⌋ ∧ ⌊bbox.x0⌋ ≤ ⌈bbox.x1⌉ ∧ ⌈bbox.x1⌉ ≤ ctx.width
        ∧ 0 ≤ ⌊bbox.y0⌋ ∧ ⌊bbox.y0⌋ ≤ ⌈bbox.y1⌉ ∧ ⌈bbox.y1⌉ ≤ ctx.height) →
       ctx.surface.type = .image →
       copy_from_bbox ctx bbox
         = .ok { x0 := ⌊bbox.x0⌋, y0 := ⌊bbox.y0⌋,
                 width := ⌈bbox.x1⌉ - ⌊bbox.x0⌋, height := ⌈bbox.y1⌉ - ⌊bbox.y0⌋,
                 buf := captureBuf ctx.surface ⌊bbox.x0⌋ ⌊bbox.y0⌋
                          (⌈bbox.x1⌉ - ⌊bbox.x0⌋) (⌈bbox.y1⌉ - ⌊bbox.y0⌋) }) ∧
    (ctx.surface.type ≠ .image →
       restore_region ctx region
         = .error (.runtimeError "restore_region only supports image surfaces")) ∧
    (ctx.surface.type = .image →
       restore_region ctx region
         = .ok { ctx.surface with
                 data := restoreRows region.buf ctx.surface.stride region.x0
                           region.y0 region.width region.height.toNat
                           ctx.surface.data }) := by
  refine ⟨?_, ?_, ?_, ?_, ?_⟩
  · intro hB
    unfold copy_from_bbox
    rw [if_pos hB]
  · intro hB htype
    unfold copy_from_bbox
    rw [if_neg (not_not_intro hB), if_pos htype]
  · intro hB htype
    unfold copy_from_bbox
    rw [if_neg (not_not_intro hB), if_neg (fun hne => hne htype)]
  · intro htype
    unfold restore_region
    rw [if_pos htype]
  · intro htype
    unfold restore_region
    rw [if_neg (fun hne => hne htype)]

/-- Witness for C8: the five cases exercised at concrete inputs — an
out-of-bounds rectangle on an image surface, a valid rectangle on a PDF
surface, a valid rectangle on an image surface, and a restore on each kind of
surface. -/
theorem region_ops_error_spec_witness :
    copy_from_bbox ⟨⟨.image, 8, fun i => i.toNat⟩, 2, 2⟩ ⟨-1, 0, 2, 2⟩
      = .error (.invalidArgument "Invalid bbox") ∧
    copy_from_bbox ⟨⟨.pdf, 8, fun _ => 0⟩, 2, 2⟩ ⟨0, 0, 2, 2⟩
      = .error (.runtimeError "copy_from_bbox only supports image surfaces") ∧
    copy_from_bbox ⟨⟨.image, 8, fun i => i.toNat⟩, 2, 2⟩ ⟨0, 0, 2, 2⟩
      = .ok { x0 := ⌊(0 : ℚ)⌋, y0 := ⌊(0 : ℚ)⌋,
              width := ⌈(2 : ℚ)⌉ - ⌊(0 : ℚ)⌋, height := ⌈(2 : ℚ)⌉ - ⌊(0 : ℚ)⌋,
              buf := captureBuf ⟨.image, 8, fun i => i.toNat⟩ ⌊(0 : ℚ)⌋ ⌊(0 : ℚ)⌋
                       (⌈(2 : ℚ)⌉ - ⌊(0 : ℚ)⌋) (⌈(2 : ℚ)⌉ - ⌊(0 : ℚ)⌋) } ∧
    restore_region ⟨⟨.pdf, 8, fun _ => 0⟩, 2, 2⟩ ⟨0, 0, 2, 2, fun _ => 0⟩
      = .error (.runtimeError "restore_region only supports image surfaces") ∧
    restore_region ⟨⟨.image, 8, fun i => i.toNat⟩, 2, 2⟩ ⟨0, 0, 2, 2, fun _ => 0⟩
      = .ok { type := .image, stride := 8,
              data := restoreRows (fun _ => 0) 8 0 0 2 (Int.toNat 2) (fun i => i.toNat) } :=
  ⟨(region_ops_error_spec ⟨⟨.image, 8, fun i => i.toNat⟩, 2, 2⟩ ⟨-1, 0, 2, 2⟩
      ⟨0, 0, 2, 2, fun _ => 0⟩).1 (by norm_num),
   (region_ops_error_spec ⟨⟨.pdf, 8, fun _ => 0⟩, 2, 2⟩ ⟨0, 0, 2, 2⟩
      ⟨0, 0, 2, 2, fun _ => 0⟩).2.1 (by norm_num) (by simp),
   (region_ops_error_spec ⟨⟨.image, 8, fun i => i.toNat⟩, 2, 2⟩ ⟨0, 0, 2, 2⟩
      ⟨0, 0, 2, 2, fun _ => 0⟩).2.2.1 (by norm_num) rfl,
   (region_ops_error_spec ⟨⟨.pdf, 8, fun _ => 0⟩, 2, 2⟩ ⟨0, 0, 2, 2⟩
      ⟨0, 0, 2, 2, fun _ => 0⟩).2.2.2.1 (by simp),
   by
     have h := (region_ops_error_spec ⟨⟨.image, 8, fun i => i.toNat⟩, 2, 2⟩
       ⟨0, 0, 2, 2⟩ ⟨0, 0, 2, 2, fun _ => 0⟩).2.2.2.2 rfl
     simpa using h⟩

/-! ## C1: region capture/restore round-trip -/

theorem rowIndexLt {j k o σ : ℤ} (hjk : j < k) (ho : 0 ≤ o) (holt : o < σ) :
    j * σ + o < k * σ := by
  have hσ : 0 < σ := lt_of_le_of_lt ho holt
  calc j * σ + o < j * σ + σ := by linarith
    _ = (j + 1) * σ := by ring
    _ ≤ k * σ := mul_le_mul_of_nonneg_right (by omega) (le_of_lt hσ)

theorem restoreRows_get (buf : ℤ → ℕ) (stride x0 y0 w : ℤ)
    (hws : 4 * w ≤ stride) :
    ∀ (rows : ℕ) (raw : ℤ → ℕ) (j : ℕ) (o : ℤ), j < rows → 0 ≤ o → o < 4 * w →
      restoreRows buf stride x0 y0 w rows raw ((y0 + j) * stride + 4 * x0 + o)
        = buf ((j : ℤ) * (4 * w) + o) := by
  intro rows
  induction rows with
  | zero => intro raw j o hj _ _; exact absurd hj (Nat.not_lt_zero j)
  | succ n ih =>
    intro raw j o hj ho holt
    show memcpyBytes (restoreRows buf stride x0 y0 w n raw)
        ((y0 + n) * stride + 4 * x0) buf ((n : ℤ) * (4 * w)) (4 * w)
        ((y0 + j) * stride + 4 * x0 + o)
      = buf ((j : ℤ) * (4 * w) + o)
    by_cases hjn : j = n
    · subst hjn
      unfold memcpyBytes
      rw [if_pos ⟨by linarith, by linarith⟩]
      congr 1
      ring
    · have hjlt : (j : ℤ) < (n : ℤ) := by exact_mod_cast Nat.lt_of_le_of_ne (by omega) hjn
      have hout : (y0 + j) * stride + 4 * x0 + o < (y0 + n) * stride + 4 * x0 := by
        have hmain : (j : ℤ) * stride + o < (n : ℤ) * stride :=
          rowIndexLt hjlt ho (lt_of_lt_of_le holt hws)
        nlinarith [hmain]
      unfold memcpyBytes
      rw [if_neg (fun hin => absurd hout (not_lt.mpr hin.1))]
      exact ih raw j o (by omega) ho holt

theorem captureRows_get (s : Surface) (x0 y0 w : ℤ) :
    ∀ (rows : ℕ) (buf0 : ℤ → ℕ) (j : ℕ) (o : ℤ), j < rows → 0 ≤ o → o < 4 * w →
      captureRows s x0 y0 w rows buf0 ((j : ℤ) * (4 * w) + o)
        = s.data ((y0 + j) * s.stride + 4 * x0 + o) := by
  intro rows
  induction rows with
  | zero => intro buf0 j o hj _ _; exact absurd hj (Nat.not_lt_zero j)
  | succ n ih =>
    intro buf0 j o hj ho holt
    show memcpyBytes (captureRows s x0 y0 w n buf0) ((n : ℤ) * (4 * w))
        s.data ((y0 + n) * s.stride + 4 * x0) (4 * w)
        ((j : ℤ) * (4 * w) + o)
      = s.data ((y0 + j) * s.stride + 4 * x0 + o)
    by_cases hjn : j = n
    · subst hjn
      unfold memcpyBytes
      rw [if_pos ⟨by linarith, by linarith⟩]
      congr 1
      ring
    · have hjlt : (j : ℤ) < (n : ℤ) := by exact_mod_cast Nat.lt_of_le_of_ne (by omega) hjn
      have hout : (j : ℤ) * (4 * w) + o < (n : ℤ) * (4 * w) :=
        rowIndexLt hjlt ho holt
      unfold memcpyBytes
      rw [if_neg (fun hin => absurd hout (not_lt.mpr hin.1))]
      exact ih buf0 j o (by omega) ho holt

/-- **C1**: for every in-bounds rectangle on an image surface,
`restore_region (copy_from_bbox R)` leaves every pixel byte inside `R` equal
to its value at capture time, even if the surface bytes were arbitrarily
overwritten (`d'`) between capture and restore.  The byte at device pixel
`(x, y)`, channel `k`, lives at offset `y * stride + 4 * x + k`; the stride
hypothesis `4 * width ≤ stride` is cairo's image-surface layout guarantee. -/
theorem region_capture_restore_roundtrip (ctx : Context) (bbox : Bbox)
    (d' : ℤ → ℕ) (x y k : ℤ)
    (himg : ctx.surface.type = .image)
    (hstride : 4 * ctx.width ≤ ctx.surface.stride)
    (hxlo : 0 ≤ ⌊bbox.x0⌋) (hxhi : ⌈bbox.x1⌉ ≤ ctx.width)
    (hylo : 0 ≤ ⌊bbox.y0⌋) (hyhi : ⌈bbox.y1⌉ ≤ ctx.height)
    (hx0 : ⌊bbox.x0⌋ ≤ x) (hx1 : x < ⌈bbox.x1⌉)
    (hy0 : ⌊bbox.y0⌋ ≤ y) (hy1 : y < ⌈bbox.y1⌉)
    (hk0 : 0 ≤ k) (hk4 : k < 4) :
    (captureThenRestore ctx bbox d').map
        (fun s => s.data (y * ctx.surface.stride + 4 * x + k))
      = .ok (ctx.surface.data (y * ctx.surface.stride + 4 * x + k)) := by
  have hbounds : 0 ≤ ⌊bbox.x0⌋ ∧ ⌊bbox.x0⌋ ≤ ⌈bbox.x1⌉ ∧ ⌈bbox.x1⌉ ≤ ctx.width
      ∧ 0 ≤ ⌊bbox.y0⌋ ∧ ⌊bbox.y0⌋ ≤ ⌈bbox.y1⌉ ∧ ⌈bbox.y1⌉ ≤ ctx.height := by
    refine ⟨hxlo, by omega, hxhi, hylo, by omega, hyhi⟩
  have hcopy : copy_from_bbox ctx bbox
      = .ok { x0 := ⌊bbox.x0⌋, y0 := ⌊bbox.y0⌋,
              width := ⌈bbox.x1⌉ - ⌊bbox.x0⌋, height := ⌈bbox.y1⌉ - ⌊bbox.y0⌋,
              buf := captureBuf ctx.surface ⌊bbox.x0⌋ ⌊bbox.y0⌋
                       (⌈bbox.x1⌉ - ⌊bbox.x0⌋) (⌈bbox.y1⌉ - ⌊bbox.y0⌋) } := by
    unfold copy_from_bbox
    rw [if_neg (not_not_intro hbounds), if_neg (fun hne => hne himg)]
  have hrest : captureThenRestore ctx bbox d'
      = .ok { type := ctx.surface.type, stride := ctx.surface.stride,
              data := restoreRows
                        (captureBuf ctx.surface ⌊bbox.x0⌋ ⌊bbox.y0⌋
                          (⌈bbox.x1⌉ - ⌊bbox.x0⌋) (⌈bbox.y1⌉ - ⌊bbox.y0⌋))
                        ctx.surface.stride ⌊bbox.x0⌋ ⌊bbox.y0⌋
                        (⌈bbox.x1⌉ - ⌊bbox.x0⌋) (⌈bbox.y1⌉ - ⌊bbox.y0⌋).toNat d' } := by
    unfold captureThenRestore
    rw [hcopy]
    show restore_region { ctx with surface := { ctx.surface with data := d' } } _ = _
    unfold restore_region
    rw [if_neg (fun hne => hne himg)]
  rw [hrest]
  simp only [Except.map]
  congr 1
  -- Reduce the byte address to row/offset form inside the captured rectangle.
  have hj : ((y - ⌊bbox.y0⌋).toNat : ℤ) = y - ⌊bbox.y0⌋ := Int.toNat_of_nonneg (by omega)
  have hjlt : (y - ⌊bbox.y0⌋).toNat < (⌈bbox.y1⌉ - ⌊bbox.y0⌋).toNat := by omega
  have ho0 : (0 : ℤ) ≤ 4 * (x - ⌊bbox.x0⌋) + k := by omega
  have holt : 4 * (x - ⌊bbox.x0⌋) + k < 4 * (⌈bbox.x1⌉ - ⌊bbox.x0⌋) := by omega
  have hws : 4 * (⌈bbox.x1⌉ - ⌊bbox.x0⌋) ≤ ctx.surface.stride := by omega
  have hidx : y * ctx.surface.stride + 4 * x + k
      = (⌊bbox.y0⌋ + ((y - ⌊bbox.y0⌋).toNat : ℤ)) * ctx.surface.stride
        + 4 * ⌊bbox.x0⌋ + (4 * (x - ⌊bbox.x0⌋) + k) := by
    rw [hj]; ring
  rw [hidx,
    restoreRows_get _ _ _ _ _ hws _ _ _ _ hjlt ho0 holt]
  unfold captureBuf
  rw [captureRows_get _ _ _ _ _ _ _ _ (by omega) ho0 holt, hj]

/-- Witness for C1: the round-trip evaluated on a concrete 2×2 image surface
with stride 8, capturing the full surface, overwriting every byte with 99,
restoring, and reading back the byte at pixel (1, 1), channel 2. -/
theorem region_capture_restore_roundtrip_witness :
    (captureThenRestore ⟨⟨.image, 8, fun i => i.toNat⟩, 2, 2⟩ ⟨0, 0, 2, 2⟩
        (fun _ => 99)).map (fun s => s.data (1 * 8 + 4 * 1 + 2))
      = .ok ((1 * 8 + 4 * 1 + 2 : ℤ).toNat) := by
  have h := region_capture_restore_roundtrip
    ⟨⟨.image, 8, fun i => i.toNat⟩, 2, 2⟩ ⟨0, 0, 2, 2⟩ (fun _ => 99) 1 1 2
    rfl (by norm_num) (by norm_num) (by norm_num) (by norm_num) (by norm_num)
    (by norm_num) (by norm_num) (by norm_num) (by norm_num) (by norm_num)
    (by norm_num)
  exact h

/-! ## C4: coordinate clamping in the general (op-code) overload -/

theorem clampCoord_mem (u : ℚ) :
    minCoord ≤ clampCoord u ∧ clampCoord u ≤ maxCoord := by
  have hmm : minCoord ≤ maxCoord := by norm_num [minCoord, maxCoord]
  unfold clampCoord
  split_ifs with h1 h2
  · exact ⟨le_refl _, hmm⟩
  · exact ⟨hmm, le_refl _⟩
  · exact ⟨not_lt.mp h1, not_lt.mp h2⟩

theorem floor_snapper_bound (u : ℚ) (hlo : minCoord ≤ u) (hhi : u ≤ maxCoord) :
    minCoord ≤ floor_snapper u ∧ floor_snapper u ≤ maxCoord + 1/2 := by
  unfold floor_snapper
  have hlo' : -(2 ^ 22 : ℚ) ≤ u := hlo
  have hfloor : (-(2 ^ 22) : ℤ) ≤ ⌊u⌋ := by
    rw [Int.le_floor]
    push_cast
    linarith
  have hceil : (⌊u⌋ : ℚ) ≤ u := Int.floor_le u
  constructor
  · have : (minCoord : ℚ) ≤ (⌊u⌋ : ℚ) := by
      rw [show (minCoord : ℚ) = ((-(2 ^ 22) : ℤ) : ℚ) from by norm_num [minCoord]]
      exact_mod_cast hfloor
    linarith
  · linarith

theorem floor_add_half_int (m : ℤ) : ⌊(m : ℚ) + 1/2⌋ = m := by
  rw [show ((m : ℚ) + 1/2) = (1/2 : ℚ) + m by ring, Int.floor_add_int]
  norm_num

theorem round_snapper_bound (u : ℚ) (hlo : minCoord ≤ u) (hhi : u ≤ maxCoord) :
    minCoord ≤ round_snapper u ∧ round_snapper u ≤ maxCoord := by
  have hlo' : -(2 ^ 22 : ℚ) ≤ u := hlo
  have hhi' : u ≤ (2 ^ 22 : ℚ) := hhi
  have hbig : ⌊((2 ^ 22 : ℤ) : ℚ) + 1/2⌋ = (2 ^ 22 : ℤ) := floor_add_half_int _
  unfold round_snapper cppRoundInt
  split_ifs with hneg
  · -- u < 0: result is -⌊-u + 1/2⌋
    have h1 : ((⌊-u + 1/2⌋ : ℤ) : ℚ) ≤ 2 ^ 22 := by
      have hm := Int.floor_mono (show -u + 1/2 ≤ ((2 ^ 22 : ℤ) : ℚ) + 1/2 by push_cast; linarith)
      rw [hbig] at hm
      exact_mod_cast hm
    have h2 : (0 : ℚ) ≤ ((⌊-u + 1/2⌋ : ℤ) : ℚ) := by
      have hf := Int.le_floor.mpr (show ((0 : ℤ) : ℚ) ≤ -u + 1/2 by push_cast; linarith)
      exact_mod_cast hf
    constructor
    · unfold minCoord; push_cast; linarith
    · unfold maxCoord; push_cast; linarith
  · -- 0 ≤ u: result is ⌊u + 1/2⌋
    have h1 : ((⌊u + 1/2⌋ : ℤ) : ℚ) ≤ 2 ^ 22 := by
      have hm := Int.floor_mono (show u + 1/2 ≤ ((2 ^ 22 : ℤ) : ℚ) + 1/2 by push_cast; linarith)
      rw [hbig] at hm
      exact_mod_cast hm
    have h2 : (0 : ℚ) ≤ ((⌊u + 1/2⌋ : ℤ) : ℚ) := by
      have hf := Int.le_floor.mpr (show ((0 : ℤ) : ℚ) ≤ u + 1/2 by push_cast; linarith)
      exact_mod_cast hf
    constructor
    · unfold minCoord; linarith
    · unfold maxCoord; linarith

theorem snapperGeneral_bound (v s : Bool) (lw : ℚ) (u : ℚ)
    (hlo : minCoord ≤ u) (hhi : u ≤ maxCoord) :
    minCoord ≤ snapperGeneral v s lw u ∧ snapperGeneral v s lw u ≤ maxCoord + 1/2 := by
  unfold snapperGeneral
  split_ifs
  · exact floor_snapper_bound u hlo hhi
  · have h := round_snapper_bound u hlo hhi
    exact ⟨h.1, by linarith [h.2]⟩
  · simp only [id_eq]
    exact ⟨hlo, by linarith⟩

theorem stateBounded_moveTo {B : ℚ} {st : LPState} {a b : ℚ}
    (h : stateBounded B st)
    (ha : minCoord ≤ a ∧ a ≤ B) (hb : minCoord ≤ b ∧ b ≤ B) :
    stateBounded B (st.moveTo a b) := by
  obtain ⟨hops, _, _⟩ := h
  refine ⟨?_, ?_, ?_⟩
  · intro op hop c hc
    rcases List.mem_append.mp hop with hmem | hmem
    · exact hops op hmem c hc
    · rcases List.mem_singleton.mp hmem with rfl
      simp only [CairoOp.coords, List.mem_cons, List.not_mem_nil, or_false] at hc
      rcases hc with rfl | rfl
      · exact ha
      · exact hb
  · intro p hp
    cases Option.some_injective _ hp
    exact ⟨ha, hb⟩
  · intro p hp
    cases Option.some_injective _ hp
    exact ⟨ha, hb⟩

theorem stateBounded_lineTo {B : ℚ} {st : LPState} {a b : ℚ}
    (h : stateBounded B st)
    (ha : minCoord ≤ a ∧ a ≤ B) (hb : minCoord ≤ b ∧ b ≤ B) :
    stateBounded B (st.lineTo a b) := by
  obtain ⟨hops, _, hstart⟩ := h
  refine ⟨?_, ?_, ?_⟩
  · intro op hop c hc
    rcases List.mem_append.mp hop with hmem | hmem
    · exact hops op hmem c hc
    · rcases List.mem_singleton.mp hmem with rfl
      simp only [CairoOp.coords, List.mem_cons, List.not_mem_nil, or_false] at hc
      rcases hc with rfl | rfl
      · exact ha
      · exact hb
  · intro p hp
    cases Option.some_injective _ hp
    exact ⟨ha, hb⟩
  · intro p hp
    unfold LPState.lineTo at hp
    revert hp
    cases hst : st.start with
    | some q =>
        intro hp
        cases Option.some_injective _ hp
        exact hstart _ hst
    | none =>
        intro hp
        cases Option.some_injective _ hp
        exact ⟨ha, hb⟩

theorem stateBounded_curveTo {B : ℚ} {st : LPState} {c1 c2 c3 c4 c5 c6 : ℚ}
    (h : stateBounded B st)
    (h1 : minCoord ≤ c1 ∧ c1 ≤ B) (h2 : minCoord ≤ c2 ∧ c2 ≤ B)
    (h3 : minCoord ≤ c3 ∧ c3 ≤ B) (h4 : minCoord ≤ c4 ∧ c4 ≤ B)
    (h5 : minCoord ≤ c5 ∧ c5 ≤ B) (h6 : minCoord ≤ c6 ∧ c6 ≤ B) :
    stateBounded B (st.curveTo c1 c2 c3 c4 c5 c6) := by
  obtain ⟨hops, _, hstart⟩ := h
  refine ⟨?_, ?_, ?_⟩
  · intro op hop c hc
    rcases List.mem_append.mp hop with hmem | hmem
    · exact hops op hmem c hc
    · rcases List.mem_singleton.mp hmem with rfl
      simp only [CairoOp.coords, List.mem_cons, List.not_mem_nil, or_false] at hc
      rcases hc with rfl | rfl | rfl | rfl | rfl | rfl
      · exact h1
      · exact h2
      · exact h3
      · exact h4
      · exact h5
      · exact h6
  · intro p hp
    cases Option.some_injective _ hp
    exact ⟨h5, h6⟩
  · intro p hp
    exact hstart p hp

theorem stateBounded_closePath {B : ℚ} {st : LPState}
    (h : stateBounded B st) : stateBounded B st.closePath := by
  obtain ⟨hops, hcur, hstart⟩ := h
  unfold LPState.closePath
  cases hst : st.start with
  | some q =>
      refine ⟨?_, ?_, ?_⟩
      · intro op hop c hc
        rcases List.mem_append.mp hop with hmem | hmem
        · exact hops op hmem c hc
        · rcases List.mem_singleton.mp hmem with rfl
          simp only [CairoOp.coords, List.not_mem_nil] at hc
      · intro p hp
        cases Option.some_injective _ hp
        exact hstart _ hst
      · intro p hp
        cases Option.some_injective _ hp
        exact hstart _ hst
  | none => exact ⟨hops, hcur, hstart⟩

set_option maxHeartbeats 800000 in
theorem loadPathGo_bounds (vs : ℕ → ℚ × ℚ) (codes : ℕ → PathCode) (n : ℕ)
    (mat : CairoMatrix) (sn : ℚ → ℚ) (B : ℚ) (hB : maxCoord ≤ B)
    (hsn : ∀ u, minCoord ≤ u → u ≤ maxCoord → minCoord ≤ sn u ∧ sn u ≤ B) :
    ∀ (fuel i : ℕ) (st : LPState),
      stateBounded B st → stateBounded B (loadPathGo vs codes n mat sn fuel i st) := by
  intro fuel
  induction fuel with
  | zero => intro i st hst; exact hst
  | succ f ih =>
    intro i st hst
    rw [loadPathGo]
    by_cases hin : i < n
    · rw [if_pos hin]
      have hx0 := clampCoord_mem (transformPoint mat (vs i)).1
      have hy0 := clampCoord_mem (transformPoint mat (vs i)).2
      have hx0B : minCoord ≤ clampCoord (transformPoint mat (vs i)).1 ∧
          clampCoord (transformPoint mat (vs i)).1 ≤ B := ⟨hx0.1, le_trans hx0.2 hB⟩
      have hy0B : minCoord ≤ clampCoord (transformPoint mat (vs i)).2 ∧
          clampCoord (transformPoint mat (vs i)).2 ≤ B := ⟨hy0.1, le_trans hy0.2 hB⟩
      have hsx0 := hsn _ hx0.1 hx0.2
      have hsy0 := hsn _ hy0.1 hy0.2
      cases hcode : codes i with
      | stop => exact ih (i + 1) st hst
      | moveto => exact ih (i + 1) _ (stateBounded_moveTo hst hsx0 hsy0)
      | lineto => exact ih (i + 1) _ (stateBounded_lineTo hst hsx0 hsy0)
      | curve3 =>
          have hx1 := clampCoord_mem (transformPoint mat (vs (i + 1))).1
          have hy1 := clampCoord_mem (transformPoint mat (vs (i + 1))).2
          have hsx1 := hsn _ hx1.1 hx1.2
          have hsy1 := hsn _ hy1.1 hy1.2
          cases hc : st.current with
          | some pc =>
              have hpc := hst.2.1 pc hc
              refine ih (i + 2) _ (stateBounded_curveTo hst ?_ ?_ ?_ ?_ hsx1 hsy1)
              · exact ⟨by linarith [hpc.1.1, hx0.1], by linarith [hpc.1.2, hx0.2, hB]⟩
              · exact ⟨by linarith [hpc.2.1, hy0.1], by linarith [hpc.2.2, hy0.2, hB]⟩
              · exact ⟨by linarith [hx0.1, hx1.1], by linarith [hx0.2, hx1.2, hB]⟩
              · exact ⟨by linarith [hy0.1, hy1.1], by linarith [hy0.2, hy1.2, hB]⟩
          | none => exact ih (i + 2) _ (stateBounded_moveTo hst hsx1 hsy1)
      | curve4 =>
          have hx1 := clampCoord_mem (transformPoint mat (vs (i + 1))).1
          have hy1 := clampCoord_mem (transformPoint mat (vs (i + 1))).2
          have hx2 := clampCoord_mem (transformPoint mat (vs (i + 2))).1
          have hy2 := clampCoord_mem (transformPoint mat (vs (i + 2))).2
          have hsx2 := hsn _ hx2.1 hx2.2
          have hsy2 := hsn _ hy2.1 hy2.2
          cases hc : st.current with
          | some pc =>
              exact ih (i + 3) _ (stateBounded_curveTo hst hx0B hy0B
                ⟨hx1.1, le_trans hx1.2 hB⟩ ⟨hy1.1, le_trans hy1.2 hB⟩ hsx2 hsy2)
          | none => exact ih (i + 3) _ (stateBounded_moveTo hst hsx2 hsy2)
      | closepoly => exact ih (i + 1) _ (stateBounded_closePath hst)
    · rw [if_neg hin]
      exact hst

/-- Counterexample for C4: with snapping active and a sub-unit line width, a
`MOVETO` vertex transformed to `(2²³, 0)` is clamped to `(2²², 0)` but then
snapped by `floor(x) + 1/2`, so the coordinate `2²² + 1/2` — outside
`[-2²², 2²²]` — reaches the surface. -/
theorem load_path_clamp_counterexample :
    (load_path_general (fun _ => (2 ^ 23, 0)) (fun _ => .moveto) 1
        ⟨1, 0, 0, 1, 0, 0⟩ (snapperGeneral false true (1/2))).ops
      = [.moveTo (2 ^ 22 + 1/2) (1/2)] ∧
    ¬ ((2 ^ 22 + 1/2 : ℚ) ≤ maxCoord) := by
  constructor
  · have hsn : snapperGeneral false true (1/2) = floor_snapper := by
      unfold snapperGeneral
      rw [if_pos ⟨by simp, rfl⟩, if_pos ⟨by norm_num, Or.inl (by norm_num)⟩]
    rw [hsn]
    show (loadPathGo _ _ 1 _ floor_snapper 1 0 ⟨[], none, none⟩).ops = _
    rw [loadPathGo]
    norm_num [transformPoint, clampCoord, minCoord, maxCoord, LPState.moveTo,
      floor_snapper, loadPathGo]
  · norm_num [maxCoord]

/-- **C4 (amended)**: in the general (op-code) overload every transformed
vertex coordinate is clamped into `[-2²², 2²²]` before use; the subsequent
pixel snapping can push a clamped coordinate up by at most `1/2`, so every
coordinate passed to the surface lies in `[-2²², 2²² + 1/2]`, and when the
snapper is inactive (vector surface or snap flag off) every coordinate lies
in `[-2²², 2²²]`. -/
theorem load_path_coordinate_bounds (vs : ℕ → ℚ × ℚ) (codes : ℕ → PathCode)
    (n : ℕ) (mat : CairoMatrix) (v s : Bool) (lw : ℚ) :
    (∀ op ∈ (load_path_general vs codes n mat (snapperGeneral v s lw)).ops,
        ∀ c ∈ op.coords, minCoord ≤ c ∧ c ≤ maxCoord + 1/2) ∧
    (v = true ∨ s = false →
      ∀ op ∈ (load_path_general vs codes n mat (snapperGeneral v s lw)).ops,
        ∀ c ∈ op.coords, minCoord ≤ c ∧ c ≤ maxCoord) := by
  have hinit : ∀ B : ℚ, stateBounded B ⟨[], none, none⟩ :=
    fun B => ⟨fun op hop => absurd hop (List.not_mem_nil op),
              fun p hp => Option.noConfusion hp,
              fun p hp => Option.noConfusion hp⟩
  constructor
  · have h := loadPathGo_bounds vs codes n mat (snapperGeneral v s lw)
      (maxCoord + 1/2) (by norm_num)
      (fun u h1 h2 => snapperGeneral_bound v s lw u h1 h2) n 0
      ⟨[], none, none⟩ (hinit _)
    exact h.1
  · intro hcase
    have hid : snapperGeneral v s lw = id := by
      unfold snapperGeneral
      rw [if_neg]
      rcases hcase with rfl | rfl
      · simp
      · simp
    have h := loadPathGo_bounds vs codes n mat (snapperGeneral v s lw)
      maxCoord (le_refl _)
      (fun u h1 h2 => by rw [hid]; exact ⟨h1, h2⟩) n 0
      ⟨[], none, none⟩ (hinit _)
    exact h.1

/-- Witness for C4 (amended): the bounds extracted for the single emitted
command of two concrete one-vertex paths — one with the half-integer snapper
active, one with snapping off. -/
theorem load_path_coordinate_bounds_witness :
    (minCoord ≤ (1/2 : ℚ) ∧ (1/2 : ℚ) ≤ maxCoord + 1/2) ∧
    (minCoord ≤ (0 : ℚ) ∧ (0 : ℚ) ≤ maxCoord) := by
  constructor
  · have hsn : snapperGeneral false true (1/2) = floor_snapper := by
      unfold snapperGeneral
      rw [if_pos ⟨by simp, rfl⟩, if_pos ⟨by norm_num, Or.inl (by norm_num)⟩]
    have hops : (load_path_general (fun _ => (0, 0)) (fun _ => .moveto) 1
        ⟨1, 0, 0, 1, 0, 0⟩ (snapperGeneral false true (1/2))).ops
        = [.moveTo (1/2) (1/2)] := by
      rw [show load_path_general (fun _ => ((0 : ℚ), (0 : ℚ))) (fun _ => .moveto) 1
          ⟨1, 0, 0, 1, 0, 0⟩ (snapperGeneral false true (1/2))
          = loadPathGo (fun _ => (0, 0)) (fun _ => .moveto) 1 ⟨1, 0, 0, 1, 0, 0⟩
              (snapperGeneral false true (1/2)) 1 0 ⟨[], none, none⟩ from rfl,
        hsn, loadPathGo]
      norm_num [transformPoint, clampCoord, minCoord, maxCoord, LPState.moveTo,
        floor_snapper, loadPathGo]
    apply (load_path_coordinate_bounds (fun _ => (0, 0)) (fun _ => .moveto) 1
      ⟨1, 0, 0, 1, 0, 0⟩ false true (1/2)).1 (.moveTo (1/2) (1/2)) ?_ (1/2) ?_
    · rw [hops]
      exact List.mem_singleton.mpr rfl
    · simp [CairoOp.coords]
  · have hid : snapperGeneral true true 1 = id := by
      unfold snapperGeneral
      rw [if_neg (by simp)]
    have hops : (load_path_general (fun _ => (0, 0)) (fun _ => .moveto) 1
        ⟨1, 0, 0, 1, 0, 0⟩ (snapperGeneral true true 1)).ops
        = [.moveTo 0 0] := by
      rw [show load_path_general (fun _ => ((0 : ℚ), (0 : ℚ))) (fun _ => .moveto) 1
          ⟨1, 0, 0, 1, 0, 0⟩ (snapperGeneral true true 1)
          = loadPathGo (fun _ => (0, 0)) (fun _ => .moveto) 1 ⟨1, 0, 0, 1, 0, 0⟩
              (snapperGeneral true true 1) 1 0 ⟨[], none, none⟩ from rfl,
        hid, loadPathGo]
      norm_num [transformPoint, clampCoord, minCoord, maxCoord, LPState.moveTo,
        loadPathGo]
    apply (load_path_coordinate_bounds (fun _ => (0, 0)) (fun _ => .moveto) 1
      ⟨1, 0, 0, 1, 0, 0⟩ true true 1).2 (Or.inl rfl) (.moveTo 0 0) ?_ 0 ?_
    · rw [hops]
      exact List.mem_singleton.mpr rfl
    · simp [CairoOp.coords]

/-! ## C3: Cohen–Sutherland clipping -/

theorem minCoord_lt_maxCoord : minCoord < maxCoord := by
  norm_num [minCoord, maxCoord]

theorem outcode_eq_zero_iff (x y : ℚ) : outcode x y = 0 ↔ inBoxQ x y := by
  unfold outcode inBoxQ
  by_cases h1 : x < minCoord <;> by_cases h2 : maxCoord < x <;>
    by_cases h3 : y < minCoord <;> by_cases h4 : maxCoord < y <;>
    simp [h1, h2, h3, h4] <;>
    first
      | (refine ⟨by linarith, by linarith, by linarith, by linarith⟩)
      | decide
      | linarith [minCoord_lt_maxCoord]

theorem outcode_top (x y : ℚ) :
    outcode x y &&& 8 = if maxCoord < y then 8 else 0 := by
  unfold outcode
  by_cases h1 : x < minCoord <;> by_cases h2 : maxCoord < x <;>
    by_cases h3 : y < minCoord <;> by_cases h4 : maxCoord < y <;>
    simp [h1, h2, h3, h4] <;>
    first | decide | linarith [minCoord_lt_maxCoord]

theorem outcode_bottom (x y : ℚ) :
    outcode x y &&& 4 = if y < minCoord then 4 else 0 := by
  unfold outcode
  by_cases h1 : x < minCoord <;> by_cases h2 : maxCoord < x <;>
    by_cases h3 : y < minCoord <;> by_cases h4 : maxCoord < y <;>
    simp [h1, h2, h3, h4] <;>
    first | decide | linarith [minCoord_lt_maxCoord]

theorem outcode_right (x y : ℚ) :
    outcode x y &&& 2 = if maxCoord < x then 2 else 0 := by
  unfold outcode
  by_cases h1 : x < minCoord <;> by_cases h2 : maxCoord < x <;>
    by_cases h3 : y < minCoord <;> by_cases h4 : maxCoord < y <;>
    simp [h1, h2, h3, h4] <;>
    first | decide | linarith [minCoord_lt_maxCoord]

theorem outcode_left (x y : ℚ) :
    outcode x y &&& 1 = if x < minCoord then 1 else 0 := by
  unfold outcode
  by_cases h1 : x < minCoord <;> by_cases h2 : maxCoord < x <;>
    by_cases h3 : y < minCoord <;> by_cases h4 : maxCoord < y <;>
    simp [h1, h2, h3, h4] <;>
    first | decide | linarith [minCoord_lt_maxCoord]

theorem outcode_lt_16 (x y : ℚ) : outcode x y < 16 := by
  unfold outcode
  by_cases h1 : x < minCoord <;> by_cases h2 : maxCoord < x <;>
    by_cases h3 : y < minCoord <;> by_cases h4 : maxCoord < y <;>
    simp [h1, h2, h3, h4]

theorem testBit3_outcode {x y : ℚ} (h : (outcode x y).testBit 3 = true) :
    maxCoord < y := by
  by_contra hn
  have h0 : outcode x y &&& 8 = 0 := by rw [outcode_top, if_neg hn]
  have h1 := Nat.testBit_and (outcode x y) 8 3
  rw [h0, h] at h1
  simp at h1
  exact absurd h1 (by decide)

theorem testBit2_outcode {x y : ℚ} (h : (outcode x y).testBit 2 = true) :
    y < minCoord := by
  by_contra hn
  have h0 : outcode x y &&& 4 = 0 := by rw [outcode_bottom, if_neg hn]
  have h1 := Nat.testBit_and (outcode x y) 4 2
  rw [h0, h] at h1
  simp at h1
  exact absurd h1 (by decide)

theorem testBit1_outcode {x y : ℚ} (h : (outcode x y).testBit 1 = true) :
    maxCoord < x := by
  by_contra hn
  have h0 : outcode x y &&& 2 = 0 := by rw [outcode_right, if_neg hn]
  have h1 := Nat.testBit_and (outcode x y) 2 1
  rw [h0, h] at h1
  simp at h1
  exact absurd h1 (by decide)

theorem testBit0_outcode {x y : ℚ} (h : (outcode x y).testBit 0 = true) :
    x < minCoord := by
  by_contra hn
  have h0 : outcode x y &&& 1 = 0 := by rw [outcode_left, if_neg hn]
  have h1 := Nat.testBit_and (outcode x y) 1 0
  rw [h0, h] at h1
  simp at h1

/-- At a `reject` of the clipping loop, both endpoints violate one common box
face. -/
theorem outcode_and_ne_zero_cases {xp yp x y : ℚ}
    (h : outcode xp yp &&& outcode x y ≠ 0) :
    (maxCoord < yp ∧ maxCoord < y) ∨ (yp < minCoord ∧ y < minCoord) ∨
    (maxCoord < xp ∧ maxCoord < x) ∨ (xp < minCoord ∧ x < minCoord) := by
  obtain ⟨i, hi⟩ : ∃ i, (outcode xp yp &&& outcode x y).testBit i = true := by
    by_contra hc
    push_neg at hc
    exact h (Nat.zero_of_testBit_eq_false (fun i => by
      have := hc i
      simpa using this))
  rw [Nat.testBit_and, Bool.and_eq_true] at hi
  obtain ⟨hA, hB⟩ := hi
  have hilt : i < 4 := by
    by_contra hge
    push_neg at hge
    have h16 : outcode xp yp < 2 ^ i :=
      lt_of_lt_of_le (outcode_lt_16 xp yp)
        (le_trans (by norm_num) (Nat.pow_le_pow_right (by norm_num) hge))
    rw [Nat.testBit_lt_two_pow h16] at hA
    exact Bool.false_ne_true hA
  interval_cases i
  · exact Or.inr (Or.inr (Or.inr ⟨testBit0_outcode hA, testBit0_outcode hB⟩))
  · exact Or.inr (Or.inr (Or.inl ⟨testBit1_outcode hA, testBit1_outcode hB⟩))
  · exact Or.inr (Or.inl ⟨testBit2_outcode hA, testBit2_outcode hB⟩)
  · exact Or.inl ⟨testBit3_outcode hA, testBit3_outcode hB⟩

theorem convex_strict_gt {c u v s : ℚ} (hu : c < u) (hv : c < v)
    (h0 : 0 ≤ s) (h1 : s ≤ 1) : c < u + (v - u) * s := by
  by_cases huv : u ≤ v
  · nlinarith [mul_nonneg (sub_nonneg.mpr huv) h0]
  · nlinarith [mul_nonneg (sub_nonneg.mpr (le_of_lt (not_le.mp huv)))
      (sub_nonneg.mpr h1)]

theorem convex_strict_lt {c u v s : ℚ} (hu : u < c) (hv : v < c)
    (h0 : 0 ≤ s) (h1 : s ≤ 1) : u + (v - u) * s < c := by
  by_cases huv : u ≤ v
  · nlinarith [mul_nonneg (sub_nonneg.mpr huv) (sub_nonneg.mpr h1)]
  · nlinarith [mul_nonneg (sub_nonneg.mpr (le_of_lt (not_le.mp huv))) h0]

/-- Reparametrize a point of the sub-segment after the first endpoint moved to
parameter `t`: parameters `s ≥ t` survive. -/
theorem cover_reparam_prev {xp yp x y t wx wy s : ℚ}
    (ht0 : 0 ≤ t) (ht1 : t ≤ 1) (hs1 : s ≤ 1) (hts : t ≤ s)
    (hwx : wx = xp + (x - xp) * s) (hwy : wy = yp + (y - yp) * s) :
    ∃ s2, 0 ≤ s2 ∧ s2 ≤ 1 ∧
      wx = (xp + (x - xp) * t) + (x - (xp + (x - xp) * t)) * s2 ∧
      wy = (yp + (y - yp) * t) + (y - (yp + (y - yp) * t)) * s2 := by
  by_cases htone : t = 1
  · have hseq : s = 1 := le_antisymm hs1 (htone ▸ hts)
    subst htone
    subst hseq
    exact ⟨1, by norm_num, le_refl _, by rw [hwx]; ring, by rw [hwy]; ring⟩
  · have htlt : t < 1 := lt_of_le_of_ne ht1 htone
    have hpos : (0 : ℚ) < 1 - t := by linarith
    refine ⟨(s - t) / (1 - t), div_nonneg (by linarith) (le_of_lt hpos), ?_, ?_, ?_⟩
    · rw [div_le_one hpos]
      linarith
    · rw [hwx]
      field_simp
      ring
    · rw [hwy]
      field_simp
      ring

/-- Reparametrize a point of the sub-segment after the second endpoint moved
to parameter `t`: parameters `s ≤ t` survive. -/
theorem cover_reparam_cur {xp yp x y t wx wy s : ℚ}
    (ht0 : 0 ≤ t) (hs0 : 0 ≤ s) (hst : s ≤ t)
    (hwx : wx = xp + (x - xp) * s) (hwy : wy = yp + (y - yp) * s) :
    ∃ s2, 0 ≤ s2 ∧ s2 ≤ 1 ∧
      wx = xp + ((xp + (x - xp) * t) - xp) * s2 ∧
      wy = yp + ((yp + (y - yp) * t) - yp) * s2 := by
  by_cases htz : t = 0
  · have hseq : s = 0 := le_antisymm (htz ▸ hst) hs0
    subst htz
    subst hseq
    exact ⟨0, le_refl _, by norm_num, by rw [hwx]; ring, by rw [hwy]; ring⟩
  · have htpos : 0 < t := lt_of_le_of_ne ht0 (fun he => htz he.symm)
    refine ⟨s / t, div_nonneg hs0 (le_of_lt htpos), ?_, ?_, ?_⟩
    · rw [div_le_one htpos]
      exact hst
    · rw [hwx]
      field_simp
      ring
    · rw [hwy]
      field_simp
      ring

theorem interp_param (a b c : ℚ) (hne : a ≠ b)
    (h : (b ≤ c ∧ c ≤ a) ∨ (a ≤ c ∧ c ≤ b)) :
    0 ≤ (c - a) / (b - a) ∧ (c - a) / (b - a) ≤ 1 ∧
    a + (b - a) * ((c - a) / (b - a)) = c := by
  have hba : b - a ≠ 0 := fun he => hne (by linarith)
  refine ⟨?_, ?_, ?_⟩
  · rw [div_nonneg_iff]
    rcases h with ⟨h1, h2⟩ | ⟨h1, h2⟩
    · right; constructor <;> linarith
    · left; constructor <;> linarith
  · rw [div_le_one_iff]
    rcases h with ⟨h1, h2⟩ | ⟨h1, h2⟩
    · right; right
      have hblta : b < a := lt_of_le_of_ne (by linarith) (fun he => hne he.symm)
      constructor <;> linarith
    · left
      have haltb : a < b := lt_of_le_of_ne (by linarith) hne
      constructor <;> linarith
  · field_simp

theorem convex_lb {lo u v t : ℚ} (hu : lo ≤ u) (hv : lo ≤ v)
    (h0 : 0 ≤ t) (h1 : t ≤ 1) : lo ≤ u + (v - u) * t := by
  nlinarith [mul_nonneg h0 (sub_nonneg.mpr hv),
             mul_nonneg (sub_nonneg.mpr h1) (sub_nonneg.mpr hu)]

theorem convex_ub {hi u v t : ℚ} (hu : u ≤ hi) (hv : v ≤ hi)
    (h0 : 0 ≤ t) (h1 : t ≤ 1) : u + (v - u) * t ≤ hi := by
  nlinarith [mul_nonneg h0 (sub_nonneg.mpr hv),
             mul_nonneg (sub_nonneg.mpr h1) (sub_nonneg.mpr hu)]

theorem testBit_true_of_and_eq {A m i : ℕ} (hm : m = 2 ^ i) (h : A &&& m = m) :
    A.testBit i = true := by
  subst hm
  have h1 := Nat.testBit_and A (2 ^ i) i
  rw [h] at h1
  simp only [Nat.testBit_two_pow_self, Bool.and_true] at h1
  exact h1.symm

theorem and_bit_contra {A B : ℕ} {i : ℕ} (hA : A.testBit i = true)
    (hB : B.testBit i = true) (h : A &&& B = 0) : False := by
  have h1 := Nat.testBit_and A B i
  rw [h, hA, hB] at h1
  simp at h1

theorem outcode_disjoint_top {xp yp x y : ℚ}
    (hdisj : outcode xp yp &&& outcode x y = 0) (h : maxCoord < yp) :
    y ≤ maxCoord := by
  by_contra hgt
  push_neg at hgt
  have hA : outcode xp yp &&& 8 = 8 := by rw [outcode_top, if_pos h]
  have hB : outcode x y &&& 8 = 8 := by rw [outcode_top, if_pos hgt]
  exact and_bit_contra (i := 3) (testBit_true_of_and_eq (by norm_num) hA)
    (testBit_true_of_and_eq (by norm_num) hB) hdisj

theorem outcode_disjoint_bottom {xp yp x y : ℚ}
    (hdisj : outcode xp yp &&& outcode x y = 0) (h : yp < minCoord) :
    minCoord ≤ y := by
  by_contra hgt
  push_neg at hgt
  have hA : outcode xp yp &&& 4 = 4 := by rw [outcode_bottom, if_pos h]
  have hB : outcode x y &&& 4 = 4 := by rw [outcode_bottom, if_pos hgt]
  exact and_bit_contra (i := 2) (testBit_true_of_and_eq (by norm_num) hA)
    (testBit_true_of_and_eq (by norm_num) hB) hdisj

theorem outcode_disjoint_right {xp yp x y : ℚ}
    (hdisj : outcode xp yp &&& outcode x y = 0) (h : maxCoord < xp) :
    x ≤ maxCoord := by
  by_contra hgt
  push_neg at hgt
  have hA : outcode xp yp &&& 2 = 2 := by rw [outcode_right, if_pos h]
  have hB : outcode x y &&& 2 = 2 := by rw [outcode_right, if_pos hgt]
  exact and_bit_contra (i := 1) (testBit_true_of_and_eq (by norm_num) hA)
    (testBit_true_of_and_eq (by norm_num) hB) hdisj

theorem outcode_disjoint_left {xp yp x y : ℚ}
    (hdisj : outcode xp yp &&& outcode x y = 0) (h : xp < minCoord) :
    minCoord ≤ x := by
  by_contra hgt
  push_neg at hgt
  have hA : outcode xp yp &&& 1 = 1 := by rw [outcode_left, if_pos h]
  have hB : outcode x y &&& 1 = 1 := by rw [outcode_left, if_pos hgt]
  exact and_bit_contra (i := 0) (testBit_true_of_and_eq (by norm_num) hA)
    (testBit_true_of_and_eq (by norm_num) hB) hdisj

theorem or_zero_split {a b : ℕ} (h : a ||| b = 0) : a = 0 ∧ b = 0 := by
  constructor <;>
    apply Nat.zero_of_testBit_eq_false <;>
    intro i <;>
    have h2 := congrArg (fun n => n.testBit i) h <;>
    simp [Nat.testBit_or] at h2 <;>
    tauto

theorem onSegment_lerp {Px Py Qx Qy xp yp x y t : ℚ}
    (hp : onSegment Px Py Qx Qy xp yp) (hq : onSegment Px Py Qx Qy x y)
    (h0 : 0 ≤ t) (h1 : t ≤ 1) :
    onSegment Px Py Qx Qy (xp + (x - xp) * t) (yp + (y - yp) * t) := by
  obtain ⟨a, ha0, ha1, hax, hay⟩ := hp
  obtain ⟨b, hb0, hb1, hbx, hby⟩ := hq
  refine ⟨a + (b - a) * t, convex_lb ha0 hb0 h0 h1, convex_ub ha1 hb1 h0 h1, ?_, ?_⟩
  · rw [hax, hbx]; ring
  · rw [hay, hby]; ring

theorem onSegment_self_left (Px Py Qx Qy : ℚ) : onSegment Px Py Qx Qy Px Py :=
  ⟨0, le_refl _, by norm_num, by ring, by ring⟩

theorem onSegment_self_right (Px Py Qx Qy : ℚ) : onSegment Px Py Qx Qy Qx Qy :=
  ⟨1, by norm_num, le_refl _, by ring, by ring⟩

theorem csUncleared_comm (xp yp x y : ℚ) :
    csUncleared xp yp x y = csUncleared x y xp yp := by
  unfold csUncleared
  simp only [and_comm]

theorem csUncleared_le_four (xp yp x y : ℚ) : csUncleared xp yp x y ≤ 4 := by
  unfold csUncleared
  split_ifs <;> norm_num

theorem uncleared_clip_top {xp yp x y xc : ℚ} (ht : maxCoord < yp)
    (hyle : y ≤ maxCoord)
    (hlb : ∀ lo : ℚ, lo ≤ xp → lo ≤ x → lo ≤ xc)
    (hub : ∀ hi : ℚ, xp ≤ hi → x ≤ hi → xc ≤ hi) :
    csUncleared xc maxCoord x y < csUncleared xp yp x y := by
  unfold csUncleared
  have c1 : (if minCoord ≤ xc ∧ minCoord ≤ x then 0 else 1)
      ≤ (if minCoord ≤ xp ∧ minCoord ≤ x then (0 : ℕ) else 1) := by
    by_cases h : minCoord ≤ xp ∧ minCoord ≤ x
    · rw [if_pos h, if_pos ⟨hlb _ h.1 h.2, h.2⟩]
    · rw [if_neg h]; split <;> omega
  have c2 : (if xc ≤ maxCoord ∧ x ≤ maxCoord then 0 else 1)
      ≤ (if xp ≤ maxCoord ∧ x ≤ maxCoord then (0 : ℕ) else 1) := by
    by_cases h : xp ≤ maxCoord ∧ x ≤ maxCoord
    · rw [if_pos h, if_pos ⟨hub _ h.1 h.2, h.2⟩]
    · rw [if_neg h]; split <;> omega
  have c3 : (if minCoord ≤ maxCoord ∧ minCoord ≤ y then 0 else 1)
      ≤ (if minCoord ≤ yp ∧ minCoord ≤ y then (0 : ℕ) else 1) := by
    by_cases h : minCoord ≤ yp ∧ minCoord ≤ y
    · rw [if_pos h, if_pos ⟨le_of_lt minCoord_lt_maxCoord, h.2⟩]
    · rw [if_neg h]; split <;> omega
  have c4new : (if maxCoord ≤ maxCoord ∧ y ≤ maxCoord then (0 : ℕ) else 1) = 0 :=
    if_pos ⟨le_refl _, hyle⟩
  have c4old : (if yp ≤ maxCoord ∧ y ≤ maxCoord then (0 : ℕ) else 1) = 1 :=
    if_neg (fun hh => absurd hh.1 (not_le.mpr ht))
  rw [c4new, c4old]
  omega

theorem uncleared_clip_bottom {xp yp x y xc : ℚ} (hb : yp < minCoord)
    (hyge : minCoord ≤ y)
    (hlb : ∀ lo : ℚ, lo ≤ xp → lo ≤ x → lo ≤ xc)
    (hub : ∀ hi : ℚ, xp ≤ hi → x ≤ hi → xc ≤ hi) :
    csUncleared xc minCoord x y < csUncleared xp yp x y := by
  unfold csUncleared
  have c1 : (if minCoord ≤ xc ∧ minCoord ≤ x then 0 else 1)
      ≤ (if minCoord ≤ xp ∧ minCoord ≤ x then (0 : ℕ) else 1) := by
    by_cases h : minCoord ≤ xp ∧ minCoord ≤ x
    · rw [if_pos h, if_pos ⟨hlb _ h.1 h.2, h.2⟩]
    · rw [if_neg h]; split <;> omega
  have c2 : (if xc ≤ maxCoord ∧ x ≤ maxCoord then 0 else 1)
      ≤ (if xp ≤ maxCoord ∧ x ≤ maxCoord then (0 : ℕ) else 1) := by
    by_cases h : xp ≤ maxCoord ∧ x ≤ maxCoord
    · rw [if_pos h, if_pos ⟨hub _ h.1 h.2, h.2⟩]
    · rw [if_neg h]; split <;> omega
  have c3new : (if minCoord ≤ minCoord ∧ minCoord ≤ y then (0 : ℕ) else 1) = 0 :=
    if_pos ⟨le_refl _, hyge⟩
  have c3old : (if minCoord ≤ yp ∧ minCoord ≤ y then (0 : ℕ) else 1) = 1 :=
    if_neg (fun hh => absurd hh.1 (not_le.mpr hb))
  have c4 : (if minCoord ≤ maxCoord ∧ y ≤ maxCoord then 0 else 1)
      ≤ (if yp ≤ maxCoord ∧ y ≤ maxCoord then (0 : ℕ) else 1) := by
    by_cases h : yp ≤ maxCoord ∧ y ≤ maxCoord
    · rw [if_pos h, if_pos ⟨le_of_lt minCoord_lt_maxCoord, h.2⟩]
    · rw [if_neg h]; split <;> omega
  rw [c3new, c3old]
  omega

theorem uncleared_clip_right {xp yp x y yc : ℚ} (hr : maxCoord < xp)
    (hxle : x ≤ maxCoord)
    (hlb : ∀ lo : ℚ, lo ≤ yp → lo ≤ y → lo ≤ yc)
    (hub : ∀ hi : ℚ, yp ≤ hi → y ≤ hi → yc ≤ hi) :
    csUncleared maxCoord yc x y < csUncleared xp yp x y := by
  unfold csUncleared
  have c1 : (if minCoord ≤ maxCoord ∧ minCoord ≤ x then 0 else 1)
      ≤ (if minCoord ≤ xp ∧ minCoord ≤ x then (0 : ℕ) else 1) := by
    by_cases h : minCoord ≤ xp ∧ minCoord ≤ x
    · rw [if_pos h, if_pos ⟨le_of_lt minCoord_lt_maxCoord, h.2⟩]
    · rw [if_neg h]; split <;> omega
  have c2new : (if maxCoord ≤ maxCoord ∧ x ≤ maxCoord then (0 : ℕ) else 1) = 0 :=
    if_pos ⟨le_refl _, hxle⟩
  have c2old : (if xp ≤ maxCoord ∧ x ≤ maxCoord then (0 : ℕ) else 1) = 1 :=
    if_neg (fun hh => absurd hh.1 (not_le.mpr hr))
  have c3 : (if minCoord ≤ yc ∧ minCoord ≤ y then 0 else 1)
      ≤ (if minCoord ≤ yp ∧ minCoord ≤ y then (0 : ℕ) else 1) := by
    by_cases h : minCoord ≤ yp ∧ minCoord ≤ y
    · rw [if_pos h, if_pos ⟨hlb _ h.1 h.2, h.2⟩]
    · rw [if_neg h]; split <;> omega
  have c4 : (if yc ≤ maxCoord ∧ y ≤ maxCoord then 0 else 1)
      ≤ (if yp ≤ maxCoord ∧ y ≤ maxCoord then (0 : ℕ) else 1) := by
    by_cases h : yp ≤ maxCoord ∧ y ≤ maxCoord
    · rw [if_pos h, if_pos ⟨hub _ h.1 h.2, h.2⟩]
    · rw [if_neg h]; split <;> omega
  rw [c2new, c2old]
  omega

theorem uncleared_clip_left {xp yp x y yc : ℚ} (hl : xp < minCoord)
    (hxge : minCoord ≤ x)
    (hlb : ∀ lo : ℚ, lo ≤ yp → lo ≤ y → lo ≤ yc)
    (hub : ∀ hi : ℚ, yp ≤ hi → y ≤ hi → yc ≤ hi) :
    csUncleared minCoord yc x y < csUncleared xp yp x y := by
  unfold csUncleared
  have c1new : (if minCoord ≤ minCoord ∧ minCoord ≤ x then (0 : ℕ) else 1) = 0 :=
    if_pos ⟨le_refl _, hxge⟩
  have c1old : (if minCoord ≤ xp ∧ minCoord ≤ x then (0 : ℕ) else 1) = 1 :=
    if_neg (fun hh => absurd hh.1 (not_le.mpr hl))
  have c2 : (if minCoord ≤ maxCoord ∧ x ≤ maxCoord then 0 else 1)
      ≤ (if xp ≤ maxCoord ∧ x ≤ maxCoord then (0 : ℕ) else 1) := by
    by_cases h : xp ≤ maxCoord ∧ x ≤ maxCoord
    · rw [if_pos h, if_pos ⟨le_of_lt minCoord_lt_maxCoord, h.2⟩]
    · rw [if_neg h]; split <;> omega
  have c3 : (if minCoord ≤ yc ∧ minCoord ≤ y then 0 else 1)
      ≤ (if minCoord ≤ yp ∧ minCoord ≤ y then (0 : ℕ) else 1) := by
    by_cases h : minCoord ≤ yp ∧ minCoord ≤ y
    · rw [if_pos h, if_pos ⟨hlb _ h.1 h.2, h.2⟩]
    · rw [if_neg h]; split <;> omega
  have c4 : (if yc ≤ maxCoord ∧ y ≤ maxCoord then 0 else 1)
      ≤ (if yp ≤ maxCoord ∧ y ≤ maxCoord then (0 : ℕ) else 1) := by
    by_cases h : yp ≤ maxCoord ∧ y ≤ maxCoord
    · rw [if_pos h, if_pos ⟨hub _ h.1 h.2, h.2⟩]
    · rw [if_neg h]; split <;> omega
  rw [c1new, c1old]
  omega

theorem clipCalc_prev (xp yp x y : ℚ)
    (hc0 : outcode xp yp ≠ 0)
    (hdisj : outcode xp yp &&& outcode x y = 0) :
    ∃ t : ℚ, 0 ≤ t ∧ t ≤ 1 ∧
      clipCalc xp yp x y (outcode xp yp)
        = (xp + (x - xp) * t, yp + (y - yp) * t) ∧
      onBoundaryQ (xp + (x - xp) * t) (yp + (y - yp) * t) ∧
      csUncleared (xp + (x - xp) * t) (yp + (y - yp) * t) x y
        < csUncleared xp yp x y ∧
      (∀ wx wy s, 0 ≤ s → s ≤ 1 → wx = xp + (x - xp) * s →
        wy = yp + (y - yp) * s → inBoxQ wx wy → t ≤ s) := by
  by_cases ht : maxCoord < yp
  · -- TOP clip of the first endpoint
    have hyle : y ≤ maxCoord := outcode_disjoint_top hdisj ht
    obtain ⟨h0, h1, hid⟩ :=
      interp_param yp y maxCoord (by intro he; linarith) (Or.inl ⟨hyle, le_of_lt ht⟩)
    have h8 : outcode xp yp &&& 8 = 8 := by rw [outcode_top, if_pos ht]
    refine ⟨(maxCoord - yp) / (y - yp), h0, h1, ?_, ?_, ?_, ?_⟩
    · unfold clipCalc
      rw [h8, if_pos (by norm_num : (8 : ℕ) ≠ 0), Prod.mk.injEq]
      exact ⟨by rw [mul_div_assoc], hid.symm⟩
    · rw [hid]
      right; right; right; rfl
    · rw [hid]
      exact uncleared_clip_top ht hyle
        (fun lo hl1 hl2 => convex_lb hl1 hl2 h0 h1)
        (fun hi hh1 hh2 => convex_ub hh1 hh2 h0 h1)
    · intro wx wy u hs0 hs1 hwx hwy hbox
      have hd : y - yp < 0 := by linarith
      rw [div_le_iff_of_neg hd]
      have hineq : yp + (y - yp) * u ≤ maxCoord := by rw [← hwy]; exact hbox.2.2.2
      nlinarith [hineq]
  · by_cases hb : yp < minCoord
    · -- BOTTOM clip of the first endpoint
      have hyge : minCoord ≤ y := outcode_disjoint_bottom hdisj hb
      obtain ⟨h0, h1, hid⟩ :=
        interp_param yp y minCoord (by intro he; linarith) (Or.inr ⟨le_of_lt hb, hyge⟩)
      have h8 : outcode xp yp &&& 8 = 0 := by rw [outcode_top, if_neg ht]
      have h4 : outcode xp yp &&& 4 = 4 := by rw [outcode_bottom, if_pos hb]
      refine ⟨(minCoord - yp) / (y - yp), h0, h1, ?_, ?_, ?_, ?_⟩
      · unfold clipCalc
        rw [h8, h4, if_neg (by norm_num : ¬ ((0 : ℕ) ≠ 0)),
          if_pos (by norm_num : (4 : ℕ) ≠ 0), Prod.mk.injEq]
        exact ⟨by rw [mul_div_assoc], hid.symm⟩
      · rw [hid]
        right; right; left; rfl
      · rw [hid]
        exact uncleared_clip_bottom hb hyge
          (fun lo hl1 hl2 => convex_lb hl1 hl2 h0 h1)
          (fun hi hh1 hh2 => convex_ub hh1 hh2 h0 h1)
      · intro wx wy u hs0 hs1 hwx hwy hbox
        have hd : (0 : ℚ) < y - yp := by linarith
        rw [div_le_iff₀ hd]
        have hineq : minCoord ≤ yp + (y - yp) * u := by rw [← hwy]; exact hbox.2.2.1
        nlinarith [hineq]
    · by_cases hr : maxCoord < xp
      · -- RIGHT clip of the first endpoint
        have hxle : x ≤ maxCoord := outcode_disjoint_right hdisj hr
        obtain ⟨h0, h1, hid⟩ :=
          interp_param xp x maxCoord (by intro he; linarith) (Or.inl ⟨hxle, le_of_lt hr⟩)
        have h8 : outcode xp yp &&& 8 = 0 := by rw [outcode_top, if_neg ht]
        have h4 : outcode xp yp &&& 4 = 0 := by rw [outcode_bottom, if_neg hb]
        have h2 : outcode xp yp &&& 2 = 2 := by rw [outcode_right, if_pos hr]
        refine ⟨(maxCoord - xp) / (x - xp), h0, h1, ?_, ?_, ?_, ?_⟩
        · unfold clipCalc
          rw [h8, h4, h2, if_neg (by norm_num : ¬ ((0 : ℕ) ≠ 0)),
            if_neg (by norm_num : ¬ ((0 : ℕ) ≠ 0)),
            if_pos (by norm_num : (2 : ℕ) ≠ 0), Prod.mk.injEq]
          exact ⟨hid.symm, by rw [mul_div_assoc]⟩
        · rw [hid]
          right; left; rfl
        · rw [hid]
          exact uncleared_clip_right hr hxle
            (fun lo hl1 hl2 => convex_lb hl1 hl2 h0 h1)
            (fun hi hh1 hh2 => convex_ub hh1 hh2 h0 h1)
        · intro wx wy u hs0 hs1 hwx hwy hbox
          have hd : x - xp < 0 := by linarith
          rw [div_le_iff_of_neg hd]
          have hineq : xp + (x - xp) * u ≤ maxCoord := by rw [← hwx]; exact hbox.2.1
          nlinarith [hineq]
      · by_cases hl : xp < minCoord
        · -- LEFT clip of the first endpoint
          have hxge : minCoord ≤ x := outcode_disjoint_left hdisj hl
          obtain ⟨h0, h1, hid⟩ :=
            interp_param xp x minCoord (by intro he; linarith) (Or.inr ⟨le_of_lt hl, hxge⟩)
          have h8 : outcode xp yp &&& 8 = 0 := by rw [outcode_top, if_neg ht]
          have h4 : outcode xp yp &&& 4 = 0 := by rw [outcode_bottom, if_neg hb]
          have h2 : outcode xp yp &&& 2 = 0 := by rw [outcode_right, if_neg hr]
          have h1b : outcode xp yp &&& 1 = 1 := by rw [outcode_left, if_pos hl]
          refine ⟨(minCoord - xp) / (x - xp), h0, h1, ?_, ?_, ?_, ?_⟩
          · unfold clipCalc
            rw [h8, h4, h2, h1b, if_neg (by norm_num : ¬ ((0 : ℕ) ≠ 0)),
              if_neg (by norm_num : ¬ ((0 : ℕ) ≠ 0)),
              if_neg (by norm_num : ¬ ((0 : ℕ) ≠ 0)),
              if_pos (by norm_num : (1 : ℕ) ≠ 0), Prod.mk.injEq]
            exact ⟨hid.symm, by rw [mul_div_assoc]⟩
          · rw [hid]
            left; rfl
          · rw [hid]
            exact uncleared_clip_left hl hxge
              (fun lo hl1 hl2 => convex_lb hl1 hl2 h0 h1)
              (fun hi hh1 hh2 => convex_ub hh1 hh2 h0 h1)
          · intro wx wy u hs0 hs1 hwx hwy hbox
            have hd : (0 : ℚ) < x - xp := by linarith
            rw [div_le_iff₀ hd]
            have hineq : minCoord ≤ xp + (x - xp) * u := by rw [← hwx]; exact hbox.1
            nlinarith [hineq]
        · exact absurd (outcode_eq_zero_iff xp yp |>.mpr
            ⟨not_lt.mp hl, not_lt.mp hr, not_lt.mp hb, not_lt.mp ht⟩) hc0

theorem clipCalc_cur (xp yp x y : ℚ)
    (hc1 : outcode x y ≠ 0)
    (hdisj : outcode xp yp &&& outcode x y = 0) :
    ∃ t : ℚ, 0 ≤ t ∧ t ≤ 1 ∧
      clipCalc xp yp x y (outcode x y)
        = (xp + (x - xp) * t, yp + (y - yp) * t) ∧
      onBoundaryQ (xp + (x - xp) * t) (yp + (y - yp) * t) ∧
      csUncleared xp yp (xp + (x - xp) * t) (yp + (y - yp) * t)
        < csUncleared xp yp x y ∧
      (∀ wx wy s, 0 ≤ s → s ≤ 1 → wx = xp + (x - xp) * s →
        wy = yp + (y - yp) * s → inBoxQ wx wy → s ≤ t) := by
  have hdisj' : outcode x y &&& outcode xp yp = 0 := by rwa [Nat.and_comm] at hdisj
  by_cases ht : maxCoord < y
  · -- TOP clip of the second endpoint
    have hyple : yp ≤ maxCoord := outcode_disjoint_top hdisj' ht
    obtain ⟨h0, h1, hid⟩ :=
      interp_param yp y maxCoord (by intro he; linarith) (Or.inr ⟨hyple, le_of_lt ht⟩)
    have h8 : outcode x y &&& 8 = 8 := by rw [outcode_top, if_pos ht]
    refine ⟨(maxCoord - yp) / (y - yp), h0, h1, ?_, ?_, ?_, ?_⟩
    · unfold clipCalc
      rw [h8, if_pos (by norm_num : (8 : ℕ) ≠ 0), Prod.mk.injEq]
      exact ⟨by rw [mul_div_assoc], hid.symm⟩
    · rw [hid]
      right; right; right; rfl
    · rw [hid]
      calc csUncleared xp yp (xp + (x - xp) * ((maxCoord - yp) / (y - yp))) maxCoord
          = csUncleared (xp + (x - xp) * ((maxCoord - yp) / (y - yp))) maxCoord xp yp :=
            csUncleared_comm _ _ _ _
        _ < csUncleared x y xp yp :=
            uncleared_clip_top ht hyple
              (fun lo hl1 hl2 => convex_lb hl2 hl1 h0 h1)
              (fun hi hh1 hh2 => convex_ub hh2 hh1 h0 h1)
        _ = csUncleared xp yp x y := csUncleared_comm x y xp yp
    · intro wx wy u hs0 hs1 hwx hwy hbox
      have hd : (0 : ℚ) < y - yp := by linarith
      rw [le_div_iff₀ hd]
      have hineq : yp + (y - yp) * u ≤ maxCoord := by rw [← hwy]; exact hbox.2.2.2
      nlinarith [hineq]
  · by_cases hb : y < minCoord
    · -- BOTTOM clip of the second endpoint
      have hypge : minCoord ≤ yp := outcode_disjoint_bottom hdisj' hb
      obtain ⟨h0, h1, hid⟩ :=
        interp_param yp y minCoord (by intro he; linarith) (Or.inl ⟨le_of_lt hb, hypge⟩)
      have h8 : outcode x y &&& 8 = 0 := by rw [outcode_top, if_neg ht]
      have h4 : outcode x y &&& 4 = 4 := by rw [outcode_bottom, if_pos hb]
      refine ⟨(minCoord - yp) / (y - yp), h0, h1, ?_, ?_, ?_, ?_⟩
      · unfold clipCalc
        rw [h8, h4, if_neg (by norm_num : ¬ ((0 : ℕ) ≠ 0)),
          if_pos (by norm_num : (4 : ℕ) ≠ 0), Prod.mk.injEq]
        exact ⟨by rw [mul_div_assoc], hid.symm⟩
      · rw [hid]
        right; right; left; rfl
      · rw [hid]
        calc csUncleared xp yp (xp + (x - xp) * ((minCoord - yp) / (y - yp))) minCoord
            = csUncleared (xp + (x - xp) * ((minCoord - yp) / (y - yp))) minCoord xp yp :=
              csUncleared_comm _ _ _ _
          _ < csUncleared x y xp yp :=
              uncleared_clip_bottom hb hypge
                (fun lo hl1 hl2 => convex_lb hl2 hl1 h0 h1)
                (fun hi hh1 hh2 => convex_ub hh2 hh1 h0 h1)
          _ = csUncleared xp yp x y := csUncleared_comm x y xp yp
      · intro wx wy u hs0 hs1 hwx hwy hbox
        have hd : y - yp < 0 := by linarith
        rw [le_div_iff_of_neg hd]
        have hineq : minCoord ≤ yp + (y - yp) * u := by rw [← hwy]; exact hbox.2.2.1
        nlinarith [hineq]
    · by_cases hr : maxCoord < x
      · -- RIGHT clip of the second endpoint
        have hxple : xp ≤ maxCoord := outcode_disjoint_right hdisj' hr
        obtain ⟨h0, h1, hid⟩ :=
          interp_param xp x maxCoord (by intro he; linarith) (Or.inr ⟨hxple, le_of_lt hr⟩)
        have h8 : outcode x y &&& 8 = 0 := by rw [outcode_top, if_neg ht]
        have h4 : outcode x y &&& 4 = 0 := by rw [outcode_bottom, if_neg hb]
        have h2 : outcode x y &&& 2 = 2 := by rw [outcode_right, if_pos hr]
        refine ⟨(maxCoord - xp) / (x - xp), h0, h1, ?_, ?_, ?_, ?_⟩
        · unfold clipCalc
          rw [h8, h4, h2, if_neg (by norm_num : ¬ ((0 : ℕ) ≠ 0)),
            if_neg (by norm_num : ¬ ((0 : ℕ) ≠ 0)),
            if_pos (by norm_num : (2 : ℕ) ≠ 0), Prod.mk.injEq]
          exact ⟨hid.symm, by rw [mul_div_assoc]⟩
        · rw [hid]
          right; left; rfl
        · rw [hid]
          calc csUncleared xp yp maxCoord (yp + (y - yp) * ((maxCoord - xp) / (x - xp)))
              = csUncleared maxCoord (yp + (y - yp) * ((maxCoord - xp) / (x - xp))) xp yp :=
                csUncleared_comm _ _ _ _
            _ < csUncleared x y xp yp :=
                uncleared_clip_right hr hxple
                  (fun lo hl1 hl2 => convex_lb hl2 hl1 h0 h1)
                  (fun hi hh1 hh2 => convex_ub hh2 hh1 h0 h1)
            _ = csUncleared xp yp x y := csUncleared_comm x y xp yp
        · intro wx wy u hs0 hs1 hwx hwy hbox
          have hd : (0 : ℚ) < x - xp := by linarith
          rw [le_div_iff₀ hd]
          have hineq : xp + (x - xp) * u ≤ maxCoord := by rw [← hwx]; exact hbox.2.1
          nlinarith [hineq]
      · by_cases hl : x < minCoord
        · -- LEFT clip of the second endpoint
          have hxpge : minCoord ≤ xp := outcode_disjoint_left hdisj' hl
          obtain ⟨h0, h1, hid⟩ :=
            interp_param xp x minCoord (by intro he; linarith) (Or.inl ⟨le_of_lt hl, hxpge⟩)
          have h8 : outcode x y &&& 8 = 0 := by rw [outcode_top, if_neg ht]
          have h4 : outcode x y &&& 4 = 0 := by rw [outcode_bottom, if_neg hb]
          have h2 : outcode x y &&& 2 = 0 := by rw [outcode_right, if_neg hr]
          have h1b : outcode x y &&& 1 = 1 := by rw [outcode_left, if_pos hl]
          refine ⟨(minCoord - xp) / (x - xp), h0, h1, ?_, ?_, ?_, ?_⟩
          · unfold clipCalc
            rw [h8, h4, h2, h1b, if_neg (by norm_num : ¬ ((0 : ℕ) ≠ 0)),
              if_neg (by norm_num : ¬ ((0 : ℕ) ≠ 0)),
              if_neg (by norm_num : ¬ ((0 : ℕ) ≠ 0)),
              if_pos (by norm_num : (1 : ℕ) ≠ 0), Prod.mk.injEq]
            exact ⟨hid.symm, by rw [mul_div_assoc]⟩
          · rw [hid]
            left; rfl
          · rw [hid]
            calc csUncleared xp yp minCoord (yp + (y - yp) * ((minCoord - xp) / (x - xp)))
                = csUncleared minCoord (yp + (y - yp) * ((minCoord - xp) / (x - xp))) xp yp :=
                  csUncleared_comm _ _ _ _
              _ < csUncleared x y xp yp :=
                  uncleared_clip_left hl hxpge
                    (fun lo hl1 hl2 => convex_lb hl2 hl1 h0 h1)
                    (fun hi hh1 hh2 => convex_ub hh2 hh1 h0 h1)
              _ = csUncleared xp yp x y := csUncleared_comm x y xp yp
          · intro wx wy u hs0 hs1 hwx hwy hbox
            have hd : x - xp < 0 := by linarith
            rw [le_div_iff_of_neg hd]
            have hineq : minCoord ≤ xp + (x - xp) * u := by rw [← hwx]; exact hbox.1
            nlinarith [hineq]
        · exact absurd (outcode_eq_zero_iff x y |>.mpr
            ⟨not_lt.mp hl, not_lt.mp hr, not_lt.mp hb, not_lt.mp ht⟩) hc1

theorem csLoop_main (Px Py Qx Qy : ℚ) :
    ∀ (fuel : ℕ) (xp yp x y : ℚ) (up : Bool),
      csUncleared xp yp x y < fuel →
      onSegment Px Py Qx Qy xp yp →
      onSegment Px Py Qx Qy x y →
      ((xp = Px ∧ yp = Py) ∨ onBoundaryQ xp yp) →
      ((x = Qx ∧ y = Qy) ∨ onBoundaryQ x y) →
      (∀ u, 0 ≤ u → u ≤ 1 →
        inBoxQ (Px + (Qx - Px) * u) (Py + (Qy - Py) * u) →
        ∃ s, 0 ≤ s ∧ s ≤ 1 ∧
          Px + (Qx - Px) * u = xp + (x - xp) * s ∧
          Py + (Qy - Py) * u = yp + (y - yp) * s) →
      (∃ r, csLoop fuel xp yp x y up = some r) ∧
      (∀ rxp ryp rx ry rup,
        csLoop fuel xp yp x y up = some (.accept rxp ryp rx ry rup) →
        inBoxQ rxp ryp ∧ inBoxQ rx ry ∧
        onSegment Px Py Qx Qy rxp ryp ∧ onSegment Px Py Qx Qy rx ry ∧
        ((rxp = Px ∧ ryp = Py) ∨ onBoundaryQ rxp ryp) ∧
        ((rx = Qx ∧ ry = Qy) ∨ onBoundaryQ rx ry)) ∧
      (csLoop fuel xp yp x y up = some .reject →
        ¬ segMeetsBox Px Py Qx Qy) := by
  intro fuel
  induction fuel with
  | zero => intro xp yp x y up hm; exact absurd hm (Nat.not_lt_zero _)
  | succ f ih =>
    intro xp yp x y up hm hsegp hsegq hbp hbq hcov
    have hstep : csLoop (f + 1) xp yp x y up
        = (if outcode xp yp ||| outcode x y = 0
           then some (.accept xp yp x y up)
           else if outcode xp yp &&& outcode x y ≠ 0 then some .reject
           else
             if (if outcode xp yp ≠ 0 then outcode xp yp else outcode x y)
                 = outcode xp yp
             then csLoop f
                    (clipCalc xp yp x y
                      (if outcode xp yp ≠ 0 then outcode xp yp else outcode x y)).1
                    (clipCalc xp yp x y
                      (if outcode xp yp ≠ 0 then outcode xp yp else outcode x y)).2
                    x y true
             else csLoop f xp yp
                    (clipCalc xp yp x y
                      (if outcode xp yp ≠ 0 then outcode xp yp else outcode x y)).1
                    (clipCalc xp yp x y
                      (if outcode xp yp ≠ 0 then outcode xp yp else outcode x y)).2
                    up) := rfl
    rw [hstep]
    by_cases hacc : outcode xp yp ||| outcode x y = 0
    · rw [if_pos hacc]
      obtain ⟨hz0, hz1⟩ := or_zero_split hacc
      refine ⟨⟨_, rfl⟩, ?_, ?_⟩
      · intro rxp ryp rx ry rup h
        simp only [Option.some.injEq, ClipResult.accept.injEq] at h
        obtain ⟨e1, e2, e3, e4, e5⟩ := h
        subst e1; subst e2; subst e3; subst e4
        exact ⟨(outcode_eq_zero_iff _ _).mp hz0, (outcode_eq_zero_iff _ _).mp hz1,
               hsegp, hsegq, hbp, hbq⟩
      · intro h
        simp at h
    · rw [if_neg hacc]
      by_cases hrej : outcode xp yp &&& outcode x y ≠ 0
      · rw [if_pos hrej]
        refine ⟨⟨_, rfl⟩, ?_, ?_⟩
        · intro rxp ryp rx ry rup h
          simp at h
        · intro _ hmeet
          obtain ⟨u, hu0, hu1, hbox⟩ := hmeet
          obtain ⟨s, hs0, hs1, hex, hey⟩ := hcov u hu0 hu1 hbox
          obtain ⟨hb1, hb2, hb3, hb4⟩ := hbox
          rcases outcode_and_ne_zero_cases hrej with
            ⟨hA, hB⟩ | ⟨hA, hB⟩ | ⟨hA, hB⟩ | ⟨hA, hB⟩
          · have := convex_strict_gt hA hB hs0 hs1
            rw [← hey] at this
            linarith
          · have := convex_strict_lt hA hB hs0 hs1
            rw [← hey] at this
            linarith
          · have := convex_strict_gt hA hB hs0 hs1
            rw [← hex] at this
            linarith
          · have := convex_strict_lt hA hB hs0 hs1
            rw [← hex] at this
            linarith
      · rw [if_neg hrej]
        have hdisj : outcode xp yp &&& outcode x y = 0 := not_ne_iff.mp hrej
        by_cases hc0 : outcode xp yp ≠ 0
        · rw [if_pos hc0, if_pos rfl]
          obtain ⟨t, h0, h1, hclip, hbound, hmeas, hcut⟩ :=
            clipCalc_prev xp yp x y hc0 hdisj
          rw [hclip]
          have hcov2 : ∀ u, 0 ≤ u → u ≤ 1 →
              inBoxQ (Px + (Qx - Px) * u) (Py + (Qy - Py) * u) →
              ∃ s, 0 ≤ s ∧ s ≤ 1 ∧
                Px + (Qx - Px) * u
                  = (xp + (x - xp) * t) + (x - (xp + (x - xp) * t)) * s ∧
                Py + (Qy - Py) * u
                  = (yp + (y - yp) * t) + (y - (yp + (y - yp) * t)) * s := by
            intro u hu0 hu1 hbox
            obtain ⟨s, hs0, hs1, hex, hey⟩ := hcov u hu0 hu1 hbox
            have hts : t ≤ s := hcut _ _ s hs0 hs1 hex hey hbox
            exact cover_reparam_prev h0 h1 hs1 hts hex hey
          exact ih (xp + (x - xp) * t) (yp + (y - yp) * t) x y true
            (by omega) (onSegment_lerp hsegp hsegq h0 h1) hsegq
            (Or.inr hbound) hbq hcov2
        · have hz : outcode xp yp = 0 := not_ne_iff.mp hc0
          have hc1 : outcode x y ≠ 0 := fun h1 => hacc (by rw [hz, h1]; rfl)
          rw [if_neg hc0,
            if_neg (show ¬ (outcode x y = outcode xp yp) from
              fun he => hc1 (he.trans hz))]
          obtain ⟨t, h0, h1, hclip, hbound, hmeas, hcut⟩ :=
            clipCalc_cur xp yp x y hc1 hdisj
          rw [hclip]
          have hcov2 : ∀ u, 0 ≤ u → u ≤ 1 →
              inBoxQ (Px + (Qx - Px) * u) (Py + (Qy - Py) * u) →
              ∃ s, 0 ≤ s ∧ s ≤ 1 ∧
                Px + (Qx - Px) * u
                  = xp + ((xp + (x - xp) * t) - xp) * s ∧
                Py + (Qy - Py) * u
                  = yp + ((yp + (y - yp) * t) - yp) * s := by
            intro u hu0 hu1 hbox
            obtain ⟨s, hs0, hs1, hex, hey⟩ := hcov u hu0 hu1 hbox
            have hst : s ≤ t := hcut _ _ s hs0 hs1 hex hey hbox
            exact cover_reparam_cur h0 hs0 hst hex hey
          have hres := ih xp yp (xp + (x - xp) * t) (yp + (y - yp) * t) up
            (by omega) hsegp (onSegment_lerp hsegp hsegq h0 h1) hbp
            (Or.inr hbound) hcov2
          convert hres using 2 <;> simp [add_sub_cancel_left]

theorem csLoop_accept (fuel : ℕ) (xp yp x y : ℚ) (up : Bool)
    (h0 : outcode xp yp = 0) (h1 : outcode x y = 0) :
    csLoop (fuel + 1) xp yp x y up = some (.accept xp yp x y up) := by
  have hstep : csLoop (fuel + 1) xp yp x y up
      = (if outcode xp yp ||| outcode x y = 0
         then some (.accept xp yp x y up)
         else if outcode xp yp &&& outcode x y ≠ 0 then some .reject
         else
           if (if outcode xp yp ≠ 0 then outcode xp yp else outcode x y)
               = outcode xp yp
           then csLoop fuel
                  (clipCalc xp yp x y
                    (if outcode xp yp ≠ 0 then outcode xp yp else outcode x y)).1
                  (clipCalc xp yp x y
                    (if outcode xp yp ≠ 0 then outcode xp yp else outcode x y)).2
                  x y true
           else csLoop fuel xp yp
                  (clipCalc xp yp x y
                    (if outcode xp yp ≠ 0 then outcode xp yp else outcode x y)).1
                  (clipCalc xp yp x y
                    (if outcode xp yp ≠ 0 then outcode xp yp else outcode x y)).2
                  up) := rfl
  rw [hstep, if_pos (by rw [h0, h1]; rfl)]

theorem csLoop_step_cur (fuel : ℕ) (xp yp x y : ℚ) (up : Bool)
    (hacc : ¬ (outcode xp yp ||| outcode x y = 0))
    (hc0 : outcode xp yp = 0) :
    csLoop (fuel + 1) xp yp x y up
      = csLoop fuel xp yp (clipCalc xp yp x y (outcode x y)).1
          (clipCalc xp yp x y (outcode x y)).2 up := by
  have hrej : ¬ (outcode xp yp &&& outcode x y ≠ 0) := by
    rw [hc0]
    simp
  have hstep : csLoop (fuel + 1) xp yp x y up
      = (if outcode xp yp ||| outcode x y = 0
         then some (.accept xp yp x y up)
         else if outcode xp yp &&& outcode x y ≠ 0 then some .reject
         else
           if (if outcode xp yp ≠ 0 then outcode xp yp else outcode x y)
               = outcode xp yp
           then csLoop fuel
                  (clipCalc xp yp x y
                    (if outcode xp yp ≠ 0 then outcode xp yp else outcode x y)).1
                  (clipCalc xp yp x y
                    (if outcode xp yp ≠ 0 then outcode xp yp else outcode x y)).2
                  x y true
           else csLoop fuel xp yp
                  (clipCalc xp yp x y
                    (if outcode xp yp ≠ 0 then outcode xp yp else outcode x y)).1
                  (clipCalc xp yp x y
                    (if outcode xp yp ≠ 0 then outcode xp yp else outcode x y)).2
                  up) := rfl
  rw [hstep, if_neg hacc, if_neg hrej,
    if_neg (show ¬ (outcode xp yp ≠ 0) from fun h => h hc0),
    if_neg (show ¬ (outcode x y = outcode xp yp) from
      fun he => hacc (by rw [hc0, he, hc0]; rfl))]

/-- **C3**: the per-segment Cohen–Sutherland clip of fast polyline mode:
a segment with both endpoints inside the ±2²² box is accepted unchanged (no
extra `MOVE_TO`, so it is emitted as-is); a segment that does not meet the box
is rejected (only a `MOVE_TO` is recorded — no line segment is emitted);
whenever a segment is accepted, both emitted endpoints lie inside the box and
every endpoint that was moved lies exactly on the box boundary; and every
segment that meets the box is accepted, so a segment crossing the boundary is
truncated to its in-box part rather than dropped. -/
theorem cohen_sutherland_spec (xp yp x y : ℚ) :
    (outcode xp yp = 0 → outcode x y = 0 →
       csClipSegment xp yp x y = some (.accept xp yp x y false)) ∧
    (¬ segMeetsBox xp yp x y → csClipSegment xp yp x y = some .reject) ∧
    (∀ rxp ryp rx ry rup,
       csClipSegment xp yp x y = some (.accept rxp ryp rx ry rup) →
       inBoxQ rxp ryp ∧ inBoxQ rx ry ∧
       ((rxp = xp ∧ ryp = yp) ∨ onBoundaryQ rxp ryp) ∧
       ((rx = x ∧ ry = y) ∨ onBoundaryQ rx ry)) ∧
    (segMeetsBox xp yp x y →
       ∃ rxp ryp rx ry rup,
         csClipSegment xp yp x y = some (.accept rxp ryp rx ry rup)) := by
  have hmain := csLoop_main xp yp x y 5 xp yp x y false
    (by have := csUncleared_le_four xp yp x y; omega)
    (onSegment_self_left _ _ _ _) (onSegment_self_right _ _ _ _)
    (Or.inl ⟨rfl, rfl⟩) (Or.inl ⟨rfl, rfl⟩)
    (fun u hu0 hu1 _ => ⟨u, hu0, hu1, rfl, rfl⟩)
  refine ⟨?_, ?_, ?_, ?_⟩
  · intro h0 h1
    show csLoop 5 xp yp x y false = some (.accept xp yp x y false)
    have hstep : csLoop 5 xp yp x y false
        = (if outcode xp yp ||| outcode x y = 0
           then some (.accept xp yp x y false)
           else if outcode xp yp &&& outcode x y ≠ 0 then some .reject
           else
             if (if outcode xp yp ≠ 0 then outcode xp yp else outcode x y)
                 = outcode xp yp
             then csLoop 4
                    (clipCalc xp yp x y
                      (if outcode xp yp ≠ 0 then outcode xp yp else outcode x y)).1
                    (clipCalc xp yp x y
                      (if outcode xp yp ≠ 0 then outcode xp yp else outcode x y)).2
                    x y true
             else csLoop 4 xp yp
                    (clipCalc xp yp x y
                      (if outcode xp yp ≠ 0 then outcode xp yp else outcode x y)).1
                    (clipCalc xp yp x y
                      (if outcode xp yp ≠ 0 then outcode xp yp else outcode x y)).2
                    false) := rfl
    rw [hstep, if_pos (by rw [h0, h1]; rfl)]
  · intro hmeet
    obtain ⟨⟨r, hr⟩, hprops, _⟩ := hmain
    show csLoop 5 xp yp x y false = some .reject
    cases r with
    | reject => exact hr
    | accept a b c d e =>
        exfalso
        obtain ⟨hbox1, _, hseg1, _, _, _⟩ := hprops a b c d e hr
        obtain ⟨t, ht0, ht1, hx, hy⟩ := hseg1
        exact hmeet ⟨t, ht0, ht1, by rw [← hx, ← hy]; exact hbox1⟩
  · intro rxp ryp rx ry rup h
    obtain ⟨_, hprops, _⟩ := hmain
    obtain ⟨hb1, hb2, _, _, hbpr, hbqr⟩ := hprops rxp ryp rx ry rup h
    exact ⟨hb1, hb2, hbpr, hbqr⟩
  · intro hmeet
    obtain ⟨⟨r, hr⟩, _, hrejimp⟩ := hmain
    cases r with
    | reject => exact absurd hmeet (hrejimp hr)
    | accept a b c d e => exact ⟨a, b, c, d, e, hr⟩

/-- Witness for C3: a fully inside segment is accepted unchanged, a segment
entirely to the right of the box is rejected, a segment crossing the right
boundary is accepted with its moved endpoint inside the box and on the
boundary, and that crossing segment — which meets the box — is indeed
accepted rather than dropped. -/
theorem cohen_sutherland_spec_witness :
    csClipSegment 0 0 1 1 = some (.accept 0 0 1 1 false) ∧
    csClipSegment (2 ^ 23) 0 (2 ^ 23) 1 = some .reject ∧
    (inBoxQ 0 0 ∧ inBoxQ maxCoord 0 ∧
      (((0 : ℚ) = 0 ∧ (0 : ℚ) = 0) ∨ onBoundaryQ 0 0) ∧
      ((maxCoord = (2 ^ 23 : ℚ) ∧ (0 : ℚ) = 0) ∨ onBoundaryQ maxCoord 0)) ∧
    (∃ rxp ryp rx ry rup,
      csClipSegment 0 0 (2 ^ 23) 0 = some (.accept rxp ryp rx ry rup)) := by
  refine ⟨?_, ?_, ?_, ?_⟩
  · exact (cohen_sutherland_spec 0 0 1 1).1 (by decide) (by decide)
  · apply (cohen_sutherland_spec (2 ^ 23) 0 (2 ^ 23) 1).2.1
    rintro ⟨t, ht0, ht1, hbox⟩
    obtain ⟨_, hx, _, _⟩ := hbox
    norm_num [maxCoord] at hx
  · have hc0 : outcode (0 : ℚ) (0 : ℚ) = 0 := by decide
    have hc1 : outcode (2 ^ 23 : ℚ) (0 : ℚ) = 2 := by decide
    have hcmax : outcode maxCoord (0 : ℚ) = 0 := by decide
    have hclip : clipCalc 0 0 (2 ^ 23 : ℚ) 0 2 = (maxCoord, 0) := by
      unfold clipCalc
      rw [if_neg (by decide : ¬ ((2 : ℕ) &&& 8 ≠ 0)),
        if_neg (by decide : ¬ ((2 : ℕ) &&& 4 ≠ 0)),
        if_pos (by decide : (2 : ℕ) &&& 2 ≠ 0), Prod.mk.injEq]
      constructor
      · rfl
      · norm_num
    have heval : csClipSegment 0 0 (2 ^ 23 : ℚ) 0
        = some (.accept 0 0 maxCoord 0 false) := by
      calc csClipSegment 0 0 (2 ^ 23 : ℚ) 0
          = csLoop (4 + 1) 0 0 (2 ^ 23 : ℚ) 0 false := rfl
        _ = csLoop 4 0 0 (clipCalc 0 0 (2 ^ 23 : ℚ) 0 (outcode (2 ^ 23 : ℚ) 0)).1
              (clipCalc 0 0 (2 ^ 23 : ℚ) 0 (outcode (2 ^ 23 : ℚ) 0)).2 false :=
            csLoop_step_cur 4 0 0 (2 ^ 23 : ℚ) 0 false (by rw [hc0, hc1]; decide) hc0
        _ = csLoop 4 0 0 maxCoord 0 false := by rw [hc1, hclip]
        _ = some (.accept 0 0 maxCoord 0 false) :=
            csLoop_accept 3 0 0 maxCoord 0 false hc0 hcmax
    exact (cohen_sutherland_spec 0 0 (2 ^ 23) 0).2.2.1 0 0 maxCoord 0 false heval
  · exact (cohen_sutherland_spec 0 0 (2 ^ 23) 0).2.2.2
      ⟨0, le_refl 0, by norm_num, by norm_num [inBoxQ, minCoord, maxCoord]⟩

end Mplcairo
